import Mathlib

/-!
Verification development for the AI model release watcher.

Shallow embedding of the change-detection and notification-routing engine:
the release-stage classifier (`src/watchers/github_watcher.py`), the
leaderboard ranking differ (`src/watchers/leaderboard_watcher.py`), the
arXiv watcher diff (`src/watchers/arxiv_watcher.py`), the event router of
`WatcherService.run_once` and the check orchestrator `WatcherService.check_all`
(`src/main.py`).

Modelling conventions:
* Python dicts become association lists (`List (String × α)`) with
  insertion-order-preserving update (`upsertA`), or functions
  `String → Option α` for the persistent state store.
* Network fetches are oracles passed as parameters; a caught
  `requests.RequestException` / non-200 status is a `FetchResult` failure
  constructor, so the fail-soft paths are explicit.
* Presentation-only event fields (title, description, url, timestamp) and
  wall-clock values (`last_checked`) are not modelled; no claim concerns them.
* Python `set` iteration order is modelled by a deterministic order
  (`List.dedup` / insertion order); only the contents matter to the claims.
-/

/-- The `ReleaseStage` enum from `src/watchers/base.py`. -/
inductive ReleaseStage where
  | announced
  | launched
  | updated
  | unknown
deriving DecidableEq, Repr

/-- A value stored in an event's `extra_data` dict (scalars and string lists
are the only shapes the sources produce). -/
inductive ExtraVal where
  | str (v : String)
  | int (v : Int)
  | bool (v : Bool)
  | strList (v : List String)
deriving DecidableEq, Repr

/-- Python `str.lower()` on the character list (the library's
`String.toLower` is defined by well-founded recursion over byte positions
and does not reduce in the kernel; this structural version is extensionally
the same map of `Char.toLower`). -/
def lowerStr (s : String) : String := ⟨s.data.map Char.toLower⟩

/-- Insertion-ordered association-list update, mirroring Python dict
assignment `d[k] = v`: the first occurrence of the key keeps its position,
its value is replaced; a missing key is appended. -/
def upsertA {α : Type} : List (String × α) → String → α → List (String × α)
  | [], k, v => [(k, v)]
  | p :: rest, k, v => if p.1 = k then (k, v) :: rest else p :: upsertA rest k v

/-- Association-list lookup, mirroring Python dict read `d.get(k)`. -/
def lookupA {α : Type} : List (String × α) → String → Option α
  | [], _ => none
  | p :: rest, k => if p.1 = k then some p.2 else lookupA rest k

/-- The `WatchEvent` dataclass from `src/watchers/base.py`.  Presentation-only
fields (title, description, url, timestamp) are not modelled. -/
structure WatchEvent where
  source : String
  eventType : String
  modelName : String
  extraData : List (String × ExtraVal)
  releaseStage : ReleaseStage
deriving DecidableEq, Repr

/-- Read a string value out of an event's `extra_data`. -/
def WatchEvent.extraS (e : WatchEvent) (k : String) : Option String :=
  match lookupA e.extraData k with
  | some (.str v) => some v
  | _ => none

/-- Read an integer value out of an event's `extra_data`. -/
def WatchEvent.extraI (e : WatchEvent) (k : String) : Option Int :=
  match lookupA e.extraData k with
  | some (.int v) => some v
  | _ => none

/-- Read a string-list value out of an event's `extra_data`. -/
def WatchEvent.extraL (e : WatchEvent) (k : String) : Option (List String) :=
  match lookupA e.extraData k with
  | some (.strList v) => some v
  | _ => none

namespace GitHubWatcher

/-- List `GitHubWatcher.ANNOUNCEMENT_KEYWORDS` (`src/watchers/github_watcher.py`). -/
def ANNOUNCEMENT_KEYWORDS : List String :=
  ["coming soon", "announcing", "preview", "teaser", "upcoming",
   "will be released", "stay tuned", "sneak peek", "roadmap",
   "planned", "expected", "eta", "wip", "work in progress",
   "alpha", "beta", "rc", "release candidate", "pre-release"]

/-- List `GitHubWatcher.LAUNCH_KEYWORDS` (`src/watchers/github_watcher.py`). -/
def LAUNCH_KEYWORDS : List String :=
  ["released", "available now", "v1.", "v2.", "stable",
   "production ready", "ready to use", "download now",
   "install", "pip install", "weights released"]

/-- True when `needle` starts the character list `hay`. -/
def startsWithL : List Char → List Char → Bool
  | [], _ => true
  | _ :: _, [] => false
  | a :: as, b :: bs => a = b && startsWithL as bs

/-- True when `needle` occurs somewhere in the character list `hay`
(Python `needle in hay` on strings). -/
def containsSubL (needle : List Char) : List Char → Bool
  | [] => startsWithL needle []
  | h :: t => startsWithL needle (h :: t) || containsSubL needle t

/-- Python substring test `needle in hay`. -/
def containsSub (hay needle : String) : Bool :=
  containsSubL needle.data hay.data

/-- Function `GitHubWatcher._detect_release_stage` (`src/watchers/github_watcher.py`,
lines 50–72): empty text returns `UNKNOWN`; otherwise the prerelease flag
short-circuits to `ANNOUNCED`; otherwise the lower-cased text is scanned for
announcement keywords, then launch keywords. -/
def detectReleaseStage (text : String) (isPrerelease : Bool) : ReleaseStage :=
  if text = "" then .unknown
  else
    let textLower := lowerStr text
    if isPrerelease then .announced
    else if ANNOUNCEMENT_KEYWORDS.any (fun kw => containsSub textLower kw) then .announced
    else if LAUNCH_KEYWORDS.any (fun kw => containsSub textLower kw) then .launched
    else .unknown

end GitHubWatcher

/-- C2 counterexample: calling the classifier with `isPrerelease = true` on
the empty string returns `UNKNOWN`, not `ANNOUNCED` — the emptiness check
precedes the prerelease short-circuit, refuting the claim's "in particular
also when the text is empty". -/
theorem detectReleaseStage_empty_prerelease_unknown :
    GitHubWatcher.detectReleaseStage "" true = ReleaseStage.unknown ∧
      ReleaseStage.unknown ≠ ReleaseStage.announced := by
  exact ⟨rfl, by decide⟩

/-- C2 (amended): for every non-empty text, the classifier with
`isPrerelease = true` returns `ANNOUNCED` regardless of the text's content
(no keyword scan is reached); the empty text instead yields `UNKNOWN`. -/
theorem detectReleaseStage_prerelease_announced (text : String) (h : text ≠ "") :
    GitHubWatcher.detectReleaseStage text true = ReleaseStage.announced := by
  simp [GitHubWatcher.detectReleaseStage, h]

/-- Witness for C2's amended theorem at the concrete text "x". -/
theorem detectReleaseStage_prerelease_announced_witness :
    "x" ≠ "" ∧ GitHubWatcher.detectReleaseStage "x" true = ReleaseStage.announced :=
  ⟨by decide, detectReleaseStage_prerelease_announced "x" (by decide)⟩

namespace LeaderboardWatcher

/-- One raw entry of the API response's `data` array, after the `.get`
defaulting the Python code applies (`src/watchers/leaderboard_watcher.py`,
lines 108–112 and 120–121). -/
structure RawModel where
  name : String
  rank : Int
  elo : Int
  id : String
  creator : String
deriving DecidableEq, Repr

/-- The per-model record stored in `current_rankings`
(`src/watchers/leaderboard_watcher.py`, lines 117–122). -/
structure RankInfo where
  rank : Int
  elo : Int
  id : String
  creator : String
deriving DecidableEq, Repr

/-- The snapshot the differ persists per board
(`src/watchers/leaderboard_watcher.py`, lines 211–218; the wall-clock
`last_checked` field is not modelled). -/
structure Snapshot where
  rankings : List (String × RankInfo)
  models : List String
  top3 : List String
  totalModels : Nat
deriving DecidableEq, Repr

/-- Python `previous_data = state.get(state_key, ...)` with an empty-dict
default on a missing key: all reads fall back to empties. -/
def emptySnapshot : Snapshot := ⟨[], [], [], 0⟩

/-- The watcher state dict, keyed per board by `lbStateKey`. -/
def LbStore : Type := String → Option Snapshot

/-- State key for one board: the literal "leaderboard_" followed by the board name (line 93). -/
def lbStateKey (board : String) : String := "leaderboard_" ++ board

/-- Dict write `state[state_key] = snapshot`. -/
def updateStore (st : LbStore) (k : String) (v : Snapshot) : LbStore :=
  fun q => if q = k then some v else st q

/-- Outcome of one board's `requests.get`: a parsed 200 body, a non-200
status, or a raised-and-caught exception (`RequestException` or any other). -/
inductive FetchResult where
  | success (data : List RawModel)
  | httpError (code : Nat)
  | exn
deriving DecidableEq, Repr

/-- A fetch outcome the code treats as a transient failure: anything but a
parsed 200 response. -/
def FetchResult.isFail : FetchResult → Bool
  | .success _ => false
  | _ => true

/-- The `for model in models_data` loop (lines 108–123): skip entries ranked
beyond `max_rank`, record the rest in the `current_rankings` dict and append
their name to `current_models`. -/
def buildCurrentAux (maxRank : Int)
    (acc : List (String × RankInfo) × List String) :
    List RawModel → List (String × RankInfo) × List String
  | [] => acc
  | mdl :: rest =>
    if mdl.rank > maxRank then buildCurrentAux maxRank acc rest
    else
      buildCurrentAux maxRank
        (upsertA acc.1 mdl.name ⟨mdl.rank, mdl.elo, mdl.id, mdl.creator⟩,
          acc.2 ++ [mdl.name]) rest

/-- Both `current_rankings` and `current_models` built from the fetched data. -/
def buildCurrent (maxRank : Int) (data : List RawModel) :
    List (String × RankInfo) × List String :=
  buildCurrentAux maxRank ([], []) data

/-- Python read `current_rankings.get(m, ...).get(..., 99)` of line 187. -/
def rankOfKey (rankings : List (String × RankInfo)) (m : String) : Int :=
  ((lookupA rankings m).map (·.rank)).getD 99

/-- Stable insertion of `m` into an already rank-sorted list: placed after
every element whose rank is ≤ its own, as Python's stable `list.sort` does. -/
def insertByRank (rankings : List (String × RankInfo)) (m : String) :
    List String → List String
  | [] => [m]
  | x :: xs =>
    if rankOfKey rankings x ≤ rankOfKey rankings m then x :: insertByRank rankings m xs
    else m :: x :: xs

/-- Python `current_top3.sort(key=lambda m: ...rank...)` — a stable sort. -/
def sortByRank (rankings : List (String × RankInfo)) (l : List String) : List String :=
  l.foldl (fun acc m => insertByRank rankings m acc) []

/-- Lines 187–188: the pre-truncation top-3 list — the tracked models whose
rank is ≤ 3, stably sorted ascending by rank.  (Note: this is a rank-value
filter, not a truncation of the full sorted list, and it is compared to the
previous `top3` before the `[:3]` truncation is applied.) -/
def currentTop3From (rankings : List (String × RankInfo)) (models : List String) :
    List String :=
  sortByRank rankings (models.filter (fun m => decide (rankOfKey rankings m ≤ 3)))

/-- The pre-truncation top-3 list computed directly from the raw data. -/
def currentTop3Of (maxRank : Int) (data : List RawModel) : List String :=
  let built := buildCurrent maxRank data
  currentTop3From built.1 built.2

/-- The snapshot stored for a board after a successful non-empty fetch
(lines 211–218); it depends only on the fetched data. -/
def snapshotOf (maxRank : Int) (data : List RawModel) : Snapshot :=
  let built := buildCurrent maxRank data
  { rankings := built.1
    models := built.2
    top3 := (currentTop3From built.1 built.2).take 3
    totalModels := built.2.length }

/-- A `leaderboard_new_entry` event (lines 136–151). -/
def newEntryEvent (board m : String) (info : RankInfo) : WatchEvent :=
  { source := "leaderboard"
    eventType := "leaderboard_new_entry"
    modelName := m
    extraData := [("leaderboard", .str board), ("rank", .int info.rank),
                  ("elo", .int info.elo), ("creator", .str info.creator),
                  ("action", .str "new_entry")]
    releaseStage := .unknown }

/-- A `leaderboard_rank_change` event (lines 167–184). -/
def rankChangeEvent (board m : String) (prevRank currRank prevElo currElo : Int) :
    WatchEvent :=
  { source := "leaderboard"
    eventType := "leaderboard_rank_change"
    modelName := m
    extraData := [("leaderboard", .str board),
                  ("previous_rank", .int prevRank), ("current_rank", .int currRank),
                  ("previous_elo", .int prevElo), ("current_elo", .int currElo),
                  ("direction", .str (if currRank < prevRank then "up" else "down")),
                  ("change", .int |prevRank - currRank|)]
    releaseStage := .unknown }

/-- A `leaderboard_top3_change` event (lines 196–209). -/
def top3ChangeEvent (board : String) (prevTop3 currTop3 : List String) : WatchEvent :=
  { source := "leaderboard"
    eventType := "leaderboard_top3_change"
    modelName := "Top 3"
    extraData := [("leaderboard", .str board),
                  ("previous_top3", .strList prevTop3),
                  ("current_top3", .strList currTop3)]
    releaseStage := .unknown }

/-- Lines 133–151: events for models now tracked but absent from the
previous snapshot's `models` set.  Python iterates the set difference; the
iteration order is modelled as first occurrence in `current_models`. -/
def newEntryEvents (board : String) (previousModels : List String)
    (currentRankings : List (String × RankInfo)) (currentModels : List String) :
    List WatchEvent :=
  (currentModels.dedup.filter (fun m => decide (m ∉ previousModels))).map
    (fun m => newEntryEvent board m ((lookupA currentRankings m).getD ⟨0, 0, "", "Unknown"⟩))

/-- The `for model_name, current_info in current_rankings.items()` loop of
lines 155–184: a rank-change event for every tracked model also present in
the previous rankings whose rank differs. -/
def rankChangeEventsCore (board : String)
    (previousRankings currentRankings : List (String × RankInfo)) :
    List WatchEvent :=
  currentRankings.filterMap (fun p =>
    match lookupA previousRankings p.1 with
    | none => none
    | some prev =>
      if p.2.rank ≠ prev.rank then
        some (rankChangeEvent board p.1 prev.rank p.2.rank prev.elo p.2.elo)
      else none)

/-- Lines 153–184: the rank-change loop runs only when the previous
rankings dict is non-empty (`if previous_rankings:`). -/
def rankChangeEvents (board : String)
    (previousRankings currentRankings : List (String × RankInfo)) :
    List WatchEvent :=
  if previousRankings.isEmpty then []
  else rankChangeEventsCore board previousRankings currentRankings

/-- Lines 186–209: one top-3 change event when the previous `top3` is
non-empty and differs from the pre-truncation current top-3 list; the event
carries the current list truncated to 3. -/
def top3ChangeEvents (board : String) (previousTop3 currTop3 : List String) :
    List WatchEvent :=
  if previousTop3 ≠ [] ∧ currTop3 ≠ previousTop3 then
    [top3ChangeEvent board previousTop3 (currTop3.take 3)]
  else []

/-- Function `LeaderboardWatcher._check_leaderboard_api`
(`src/watchers/leaderboard_watcher.py`, lines 90–232): a failed or non-200
fetch (and any caught exception) leaves the state untouched and contributes
no events; a 200 response with an empty `data` array is likewise skipped; a
non-empty response is diffed against the board's previous snapshot and the
new snapshot is stored. -/
def checkLeaderboardApi (maxRank : Int) (board : String) (fetch : FetchResult)
    (state : LbStore) : List WatchEvent × LbStore :=
  match fetch with
  | .httpError _ => ([], state)
  | .exn => ([], state)
  | .success data =>
    if data = [] then ([], state)
    else
      let built := buildCurrent maxRank data
      let previousData := (state (lbStateKey board)).getD emptySnapshot
      let evsNew := newEntryEvents board previousData.models built.1 built.2
      let evsRank := rankChangeEvents board previousData.rankings built.1
      let currTop3 := currentTop3From built.1 built.2
      let evsTop3 := top3ChangeEvents board previousData.top3 currTop3
      (evsNew ++ evsRank ++ evsTop3,
        updateStore state (lbStateKey board) (snapshotOf maxRank data))

/-- The boards `ENDPOINTS` knows (`src/watchers/leaderboard_watcher.py`,
lines 26–35). -/
def lbKnownBoards : List String :=
  ["text-to-image", "image-editing", "text-to-video", "image-to-video",
   "text-to-speech"]

/-- Configuration of the leaderboard watcher: whether an API key is
configured, the boards to watch, and `max_rank`. -/
structure LbConfig where
  apiKeyPresent : Bool
  boards : List String
  maxRank : Int

/-- The `for i, board_name in enumerate(...)` loop of
`LeaderboardWatcher.check_updates` (lines 76–87): unknown boards are
skipped, the rest are checked in order, threading the state. -/
def lbFoldBoards (maxRank : Int) (fetch : String → FetchResult) :
    List String → List WatchEvent × LbStore → List WatchEvent × LbStore
  | [], acc => acc
  | b :: rest, acc =>
    if b ∈ lbKnownBoards then
      let r := checkLeaderboardApi maxRank b (fetch b) acc.2
      lbFoldBoards maxRank fetch rest (acc.1 ++ r.1, r.2)
    else lbFoldBoards maxRank fetch rest acc

/-- Function `LeaderboardWatcher.check_updates` (lines 65–88): without an API key the
call warns and returns no events; otherwise every configured board is
checked in sequence against the (copied) prior state. -/
def lbCheckUpdates (cfg : LbConfig) (fetch : String → FetchResult)
    (prior : Option LbStore) : List WatchEvent × LbStore :=
  let s0 : LbStore := prior.getD (fun _ => none)
  if ¬cfg.apiKeyPresent then ([], s0)
  else lbFoldBoards cfg.maxRank fetch cfg.boards ([], s0)

/-- The key list of an association list. -/
def keysOf {α : Type} (l : List (String × α)) : List String := l.map Prod.fst

@[simp] lemma keysOf_nil {α : Type} : keysOf ([] : List (String × α)) = [] := rfl

@[simp] lemma keysOf_cons {α : Type} (p : String × α) (l : List (String × α)) :
    keysOf (p :: l) = p.1 :: keysOf l := rfl

lemma mem_upsertA {α : Type} {l : List (String × α)} {k : String} {v : α}
    {p : String × α} (h : p ∈ upsertA l k v) : p = (k, v) ∨ p ∈ l := by
  induction l with
  | nil => simpa [upsertA] using h
  | cons q rest ih =>
    by_cases hq : q.1 = k
    · simp only [upsertA, if_pos hq, List.mem_cons] at h
      rcases h with h | h
      · exact Or.inl h
      · exact Or.inr (List.mem_cons_of_mem _ h)
    · simp only [upsertA, if_neg hq, List.mem_cons] at h
      rcases h with h | h
      · exact Or.inr (List.mem_cons.2 (Or.inl h))
      · rcases ih h with h' | h'
        · exact Or.inl h'
        · exact Or.inr (List.mem_cons_of_mem _ h')

lemma keysOf_upsertA {α : Type} (l : List (String × α)) (k : String) (v : α) :
    keysOf (upsertA l k v) =
      if k ∈ keysOf l then keysOf l else keysOf l ++ [k] := by
  induction l with
  | nil => simp [upsertA]
  | cons q rest ih =>
    by_cases hq : q.1 = k
    · simp [upsertA, hq]
    · have hqk : ¬(k = q.1) := fun h => hq h.symm
      simp only [upsertA, if_neg hq, keysOf_cons, List.mem_cons]
      by_cases hmem : k ∈ keysOf rest
      · simp [hmem, ih]
      · simp [hmem, hqk, ih]

lemma keysOf_upsertA_nodup {α : Type} {l : List (String × α)} {k : String} {v : α}
    (h : (keysOf l).Nodup) : (keysOf (upsertA l k v)).Nodup := by
  rw [keysOf_upsertA]
  by_cases hmem : k ∈ keysOf l
  · simpa [hmem] using h
  · simpa [hmem, List.nodup_append] using h

lemma lookupA_eq_some_of_mem {α : Type} {l : List (String × α)} {k : String} {v : α}
    (hnd : (keysOf l).Nodup) (hm : (k, v) ∈ l) : lookupA l k = some v := by
  induction l with
  | nil => cases hm
  | cons q rest ih =>
    rw [keysOf_cons, List.nodup_cons] at hnd
    rcases List.mem_cons.1 hm with h | h
    · simp [lookupA, ← h]
    · have hkmem : k ∈ keysOf rest := by
        simpa [keysOf] using List.mem_map_of_mem Prod.fst h
      have hq : q.1 ≠ k := fun hk => hnd.1 (hk ▸ hkmem)
      simp only [lookupA, if_neg hq]
      exact ih hnd.2 h

lemma mem_of_lookupA_eq_some {α : Type} {l : List (String × α)} {k : String} {v : α}
    (h : lookupA l k = some v) : (k, v) ∈ l := by
  induction l with
  | nil => simp [lookupA] at h
  | cons q rest ih =>
    by_cases hq : q.1 = k
    · simp only [lookupA, if_pos hq] at h
      obtain ⟨q1, q2⟩ := q
      obtain rfl : q2 = v := by injection h
      obtain rfl : q1 = k := hq
      exact List.mem_cons_self _ _
    · simp only [lookupA, if_neg hq] at h
      exact List.mem_cons_of_mem _ (ih h)

lemma lookupA_eq_none_of_not_mem {α : Type} {l : List (String × α)} {k : String}
    (h : k ∉ keysOf l) : lookupA l k = none := by
  induction l with
  | nil => rfl
  | cons q rest ih =>
    rw [keysOf_cons] at h
    have hq : q.1 ≠ k := fun hk => h (by simp [hk])
    simp only [lookupA, if_neg hq]
    exact ih (fun hk => h (List.mem_cons_of_mem _ hk))

/-- The loop of lines 108–123 maintains: ranking keys are duplicate-free,
every ranking key occurs in `current_models`, and every recorded rank is
within `max_rank`. -/
lemma buildCurrentAux_inv (maxRank : Int) (data : List RawModel)
    (acc : List (String × RankInfo) × List String)
    (hnd : (keysOf acc.1).Nodup)
    (hsub : ∀ s ∈ keysOf acc.1, s ∈ acc.2)
    (hrk : ∀ p ∈ acc.1, p.2.rank ≤ maxRank) :
    (keysOf (buildCurrentAux maxRank acc data).1).Nodup
    ∧ (∀ s ∈ keysOf (buildCurrentAux maxRank acc data).1,
        s ∈ (buildCurrentAux maxRank acc data).2)
    ∧ (∀ p ∈ (buildCurrentAux maxRank acc data).1, p.2.rank ≤ maxRank) := by
  induction data generalizing acc with
  | nil => exact ⟨hnd, hsub, hrk⟩
  | cons mdl rest ih =>
    by_cases hr : mdl.rank > maxRank
    · simpa [buildCurrentAux, hr] using ih acc hnd hsub hrk
    · simp only [buildCurrentAux, if_neg hr]
      refine ih _ (keysOf_upsertA_nodup hnd) ?_ ?_
      · intro s hs
        rw [keysOf_upsertA] at hs
        by_cases hmem : mdl.name ∈ keysOf acc.1
        · simp only [if_pos hmem] at hs
          exact List.mem_append_left _ (hsub s hs)
        · simp only [if_neg hmem, List.mem_append, List.mem_singleton] at hs
          rcases hs with hs | hs
          · exact List.mem_append_left _ (hsub s hs)
          · simp [hs]
      · intro p hp
        rcases mem_upsertA hp with h | h
        · simp [h, not_lt.1 hr]
        · exact hrk p h

lemma buildCurrent_keys_nodup (maxRank : Int) (data : List RawModel) :
    (keysOf (buildCurrent maxRank data).1).Nodup :=
  (buildCurrentAux_inv maxRank data ([], []) (by simp [keysOf]) (by simp [keysOf])
    (by simp)).1

lemma buildCurrent_keys_sub (maxRank : Int) (data : List RawModel) :
    ∀ s ∈ keysOf (buildCurrent maxRank data).1, s ∈ (buildCurrent maxRank data).2 :=
  (buildCurrentAux_inv maxRank data ([], []) (by simp [keysOf]) (by simp [keysOf])
    (by simp)).2.1

lemma buildCurrent_rank_le (maxRank : Int) (data : List RawModel) :
    ∀ p ∈ (buildCurrent maxRank data).1, p.2.rank ≤ maxRank :=
  (buildCurrentAux_inv maxRank data ([], []) (by simp [keysOf]) (by simp [keysOf])
    (by simp)).2.2

lemma mem_insertByRank {rankings : List (String × RankInfo)} {m x : String}
    {l : List String} : x ∈ insertByRank rankings m l ↔ x = m ∨ x ∈ l := by
  induction l with
  | nil => simp [insertByRank]
  | cons y ys ih =>
    by_cases hc : rankOfKey rankings y ≤ rankOfKey rankings m
    · rw [insertByRank, if_pos hc]
      simp only [List.mem_cons, ih]
      tauto
    · rw [insertByRank, if_neg hc]
      simp only [List.mem_cons]

lemma mem_sortByRank_aux {rankings : List (String × RankInfo)} {x : String}
    (l acc : List String) :
    x ∈ List.foldl (fun acc m => insertByRank rankings m acc) acc l ↔
      x ∈ acc ∨ x ∈ l := by
  induction l generalizing acc with
  | nil => simp
  | cons y ys ih =>
    simp only [List.foldl_cons, ih, mem_insertByRank, List.mem_cons]
    tauto

lemma mem_sortByRank {rankings : List (String × RankInfo)} {l : List String}
    {x : String} : x ∈ sortByRank rankings l ↔ x ∈ l := by
  simp [sortByRank, mem_sortByRank_aux]

lemma mem_newEntryEvents {board : String} {previousModels : List String}
    {currentRankings : List (String × RankInfo)} {currentModels : List String}
    {e : WatchEvent}
    (h : e ∈ newEntryEvents board previousModels currentRankings currentModels) :
    e.eventType = "leaderboard_new_entry" ∧ e.modelName ∈ currentModels := by
  simp only [newEntryEvents, List.mem_map, List.mem_filter] at h
  obtain ⟨m, ⟨hm, _⟩, rfl⟩ := h
  exact ⟨rfl, List.mem_dedup.1 hm⟩

lemma mem_rankChangeEventsCore {board : String}
    {previousRankings currentRankings : List (String × RankInfo)} {e : WatchEvent}
    (h : e ∈ rankChangeEventsCore board previousRankings currentRankings) :
    ∃ p ∈ currentRankings, ∃ prev : RankInfo,
      lookupA previousRankings p.1 = some prev ∧ p.2.rank ≠ prev.rank ∧
        e = rankChangeEvent board p.1 prev.rank p.2.rank prev.elo p.2.elo := by
  simp only [rankChangeEventsCore, List.mem_filterMap] at h
  obtain ⟨p, hp, hfp⟩ := h
  split at hfp
  · cases hfp
  · next prev hl =>
    split at hfp
    · next hr => exact ⟨p, hp, prev, hl, hr, (Option.some_inj.1 hfp).symm⟩
    · cases hfp

lemma mem_rankChangeEvents {board : String}
    {previousRankings currentRankings : List (String × RankInfo)} {e : WatchEvent}
    (h : e ∈ rankChangeEvents board previousRankings currentRankings) :
    e.eventType = "leaderboard_rank_change" ∧ e.modelName ∈ keysOf currentRankings := by
  rw [rankChangeEvents] at h
  by_cases hp : previousRankings.isEmpty
  · rw [if_pos hp] at h; cases h
  · rw [if_neg hp] at h
    obtain ⟨p, hp', _, _, _, rfl⟩ := mem_rankChangeEventsCore h
    exact ⟨rfl, by simpa [keysOf] using List.mem_map_of_mem Prod.fst hp'⟩

lemma mem_top3ChangeEvents {board : String} {previousTop3 currTop3 : List String}
    {e : WatchEvent} (h : e ∈ top3ChangeEvents board previousTop3 currTop3) :
    e = top3ChangeEvent board previousTop3 (currTop3.take 3)
      ∧ previousTop3 ≠ [] ∧ currTop3 ≠ previousTop3 := by
  rw [top3ChangeEvents] at h
  by_cases hc : previousTop3 ≠ [] ∧ currTop3 ≠ previousTop3
  · rw [if_pos hc] at h
    exact ⟨List.mem_singleton.1 h, hc⟩
  · rw [if_neg hc] at h; cases h

lemma top3ChangeEvents_eq (board : String) (previousTop3 currTop3 : List String) :
    top3ChangeEvents board previousTop3 currTop3 =
      if previousTop3 ≠ [] ∧ currTop3 ≠ previousTop3 then
        [top3ChangeEvent board previousTop3 (currTop3.take 3)]
      else [] := rfl

end LeaderboardWatcher

open LeaderboardWatcher

/-- C3 (amended): for every successfully fetched non-empty board response,
the snapshot the differ stores satisfies: every tracked entry has
rank ≤ maxRank; `top3` is the subset of tracked models whose rank value is
≤ 3, stably sorted ascending by rank and truncated to 3; hence every member
of `top3` has rank ≤ 3, and `top3` is empty whenever no tracked model has
rank ≤ 3 — even when the maxRank-filtered model list itself is non-empty
(the code filters on the rank value; it does not truncate the full sorted
list). -/
theorem leaderboard_snapshot_top3_spec (maxRank : Int) (board : String)
    (data : List RawModel) (state : LbStore) (hdata : data ≠ []) :
    (checkLeaderboardApi maxRank board (.success data) state).2 (lbStateKey board)
        = some (snapshotOf maxRank data)
    ∧ (snapshotOf maxRank data).top3 = (currentTop3Of maxRank data).take 3
    ∧ (∀ p ∈ (snapshotOf maxRank data).rankings, p.2.rank ≤ maxRank)
    ∧ (∀ m ∈ (snapshotOf maxRank data).top3,
        rankOfKey (snapshotOf maxRank data).rankings m ≤ 3) := by
  refine ⟨?_, rfl, buildCurrent_rank_le maxRank data, ?_⟩
  · simp [checkLeaderboardApi, hdata, updateStore]
  · intro m hm
    have h1 : m ∈ sortByRank (buildCurrent maxRank data).1
        (((buildCurrent maxRank data).2).filter
          (fun x => decide (rankOfKey (buildCurrent maxRank data).1 x ≤ 3))) :=
      List.take_subset 3 _ hm
    exact of_decide_eq_true (List.mem_filter.1 (mem_sortByRank.1 h1)).2

/-- Witness for C3's amended theorem at a one-model board response. -/
theorem leaderboard_snapshot_top3_spec_witness :
    ([(⟨"A", 1, 1500, "i", "c"⟩ : RawModel)] ≠ [])
    ∧ ((checkLeaderboardApi 30 "text-to-image"
          (.success [⟨"A", 1, 1500, "i", "c"⟩]) (fun _ => none)).2
            (lbStateKey "text-to-image")
          = some (snapshotOf 30 [⟨"A", 1, 1500, "i", "c"⟩])
        ∧ (snapshotOf 30 [⟨"A", 1, 1500, "i", "c"⟩]).top3
            = (currentTop3Of 30 [⟨"A", 1, 1500, "i", "c"⟩]).take 3
        ∧ (∀ p ∈ (snapshotOf 30 [⟨"A", 1, 1500, "i", "c"⟩]).rankings,
            p.2.rank ≤ 30)
        ∧ (∀ m ∈ (snapshotOf 30 [⟨"A", 1, 1500, "i", "c"⟩]).top3,
            rankOfKey (snapshotOf 30 [⟨"A", 1, 1500, "i", "c"⟩]).rankings m ≤ 3)) :=
  ⟨by decide,
    leaderboard_snapshot_top3_spec 30 "text-to-image" _ (fun _ => none) (by decide)⟩

/-- C3 counterexample: with a single fetched model "X" at rank 5 (within
maxRank = 30), the stored `top3` is empty, although the maxRank-filtered
model list sorted ascending by rank and truncated to 3 is the non-empty
["X"] — refuting "top3 equals the filtered list sorted and truncated, so it
is non-empty whenever the filtered list is non-empty". -/
theorem leaderboard_top3_counterexample :
    (((checkLeaderboardApi 30 "text-to-image"
          (.success [⟨"X", 5, 1000, "i", "c"⟩]) (fun _ => none)).2
        (lbStateKey "text-to-image")).getD emptySnapshot).top3 = []
    ∧ (sortByRank (buildCurrent 30 [⟨"X", 5, 1000, "i", "c"⟩]).1
          (buildCurrent 30 [⟨"X", 5, 1000, "i", "c"⟩]).2).take 3 = ["X"]
    ∧ ([] : List String) ≠ ["X"] :=
  ⟨by decide, by decide, by decide⟩

namespace LeaderboardWatcher

/-- Decidable test "this event is the rank-change event for model `m`". -/
def isRankChangeFor (m : String) (e : WatchEvent) : Bool :=
  decide (e.eventType = "leaderboard_rank_change" ∧ e.modelName = m)

lemma lookupA_isEmpty_false {α : Type} {l : List (String × α)} {k : String} {v : α}
    (h : lookupA l k = some v) : l.isEmpty = false := by
  cases l with
  | nil => simp [lookupA] at h
  | cons p rest => rfl

lemma rankChangeEventsCore_cons (board : String)
    (prevR : List (String × RankInfo)) (p1 : String) (p2 : RankInfo)
    (rest : List (String × RankInfo)) :
    rankChangeEventsCore board prevR ((p1, p2) :: rest)
      = match lookupA prevR p1 with
        | none => rankChangeEventsCore board prevR rest
        | some prev =>
          if p2.rank ≠ prev.rank then
            rankChangeEvent board p1 prev.rank p2.rank prev.elo p2.elo
              :: rankChangeEventsCore board prevR rest
          else rankChangeEventsCore board prevR rest := by
  simp only [rankChangeEventsCore, List.filterMap_cons]
  rcases lookupA prevR p1 with _ | prev
  · rfl
  · by_cases hr : p2.rank ≠ prev.rank <;> simp [hr]

lemma rankChangeEventsCore_filter_single (board m : String)
    (prevR : List (String × RankInfo)) (cur pv : RankInfo)
    (hpv : lookupA prevR m = some pv) (hne : cur.rank ≠ pv.rank) :
    ∀ currR : List (String × RankInfo), (keysOf currR).Nodup →
      lookupA currR m = some cur →
      (rankChangeEventsCore board prevR currR).filter (isRankChangeFor m)
        = [rankChangeEvent board m pv.rank cur.rank pv.elo cur.elo] := by
  intro currR
  induction currR with
  | nil => intro _ hcur; simp [lookupA] at hcur
  | cons p rest ih =>
    intro hnd hcur
    obtain ⟨p1, p2⟩ := p
    rw [keysOf_cons, List.nodup_cons] at hnd
    rw [rankChangeEventsCore_cons]
    by_cases hp : p1 = m
    · subst hp
      have hp2 : p2 = cur := by simpa [lookupA] using hcur
      subst hp2
      have hfil : (rankChangeEventsCore board prevR rest).filter
          (isRankChangeFor p1) = [] := by
        refine List.filter_eq_nil_iff.2 (fun e he => ?_)
        obtain ⟨q, hq, prev, _, _, rfl⟩ := mem_rankChangeEventsCore he
        have hqk : q.1 ∈ keysOf rest := by
          simpa [keysOf] using List.mem_map_of_mem Prod.fst hq
        simp only [isRankChangeFor, rankChangeEvent, decide_eq_true_eq, not_and]
        exact fun _ h => hnd.1 (h ▸ hqk)
      rw [hpv]
      show List.filter (isRankChangeFor p1)
          (if p2.rank ≠ pv.rank then
            rankChangeEvent board p1 pv.rank p2.rank pv.elo p2.elo
              :: rankChangeEventsCore board prevR rest
          else rankChangeEventsCore board prevR rest)
        = [rankChangeEvent board p1 pv.rank p2.rank pv.elo p2.elo]
      rw [if_pos hne, List.filter_cons]
      have hpred : isRankChangeFor p1
          (rankChangeEvent board p1 pv.rank p2.rank pv.elo p2.elo) = true := by
        simp [isRankChangeFor, rankChangeEvent]
      rw [hpred, if_pos rfl, hfil]
    · have hcur' : lookupA rest m = some cur := by
        simpa [lookupA, hp] using hcur
      have hmain := ih hnd.2 hcur'
      rcases hl : lookupA prevR p1 with _ | prev
      · exact hmain
      · show List.filter (isRankChangeFor m)
            (if p2.rank ≠ prev.rank then
              rankChangeEvent board p1 prev.rank p2.rank prev.elo p2.elo
                :: rankChangeEventsCore board prevR rest
            else rankChangeEventsCore board prevR rest)
          = [rankChangeEvent board m pv.rank cur.rank pv.elo cur.elo]
        by_cases hr : p2.rank ≠ prev.rank
        · rw [if_pos hr, List.filter_cons]
          have hpred : isRankChangeFor m
              (rankChangeEvent board p1 prev.rank p2.rank prev.elo p2.elo)
                = false := by
            simp [isRankChangeFor, rankChangeEvent, hp]
          rw [hpred]
          simpa using hmain
        · rw [if_neg hr]
          exact hmain

end LeaderboardWatcher

namespace LeaderboardWatcher

/-- Decidable test "this event is a top-3 change event". -/
def isTop3Change (e : WatchEvent) : Bool :=
  decide (e.eventType = "leaderboard_top3_change")

/-- Unfolding of the differ on a successful non-empty fetch: the emitted
events are the new-entry, rank-change and top-3 blocks in order, and the
snapshot computed from the data is stored under the board's key. -/
lemma checkLeaderboardApi_success (maxRank : Int) (board : String)
    (data : List RawModel) (state : LbStore) (hdata : data ≠ []) :
    checkLeaderboardApi maxRank board (.success data) state
      = (newEntryEvents board ((state (lbStateKey board)).getD emptySnapshot).models
            (buildCurrent maxRank data).1 (buildCurrent maxRank data).2
          ++ rankChangeEvents board
              ((state (lbStateKey board)).getD emptySnapshot).rankings
              (buildCurrent maxRank data).1
          ++ top3ChangeEvents board
              ((state (lbStateKey board)).getD emptySnapshot).top3
              (currentTop3From (buildCurrent maxRank data).1
                (buildCurrent maxRank data).2),
        updateStore state (lbStateKey board) (snapshotOf maxRank data)) := by
  simp [checkLeaderboardApi, hdata]

end LeaderboardWatcher

/-- C5 (confirmed): for every model `m` tracked in both the previous and the
current rankings with differing ranks, the differ emits exactly one
`leaderboard_rank_change` event for `m`; its extra data carries
direction = "up" iff currRank < prevRank (else "down"),
change = |prevRank − currRank|, and the previous/current ELO values (so the
ELO delta it conveys is currElo − prevElo). -/
theorem leaderboard_rank_change_exact (maxRank : Int) (board m : String)
    (data : List RawModel) (state : LbStore) (cur pv : RankInfo)
    (hdata : data ≠ [])
    (hcur : lookupA (buildCurrent maxRank data).1 m = some cur)
    (hpv : lookupA ((state (lbStateKey board)).getD emptySnapshot).rankings m
      = some pv)
    (hne : cur.rank ≠ pv.rank) :
    ((checkLeaderboardApi maxRank board (.success data) state).1.filter
        (isRankChangeFor m))
      = [rankChangeEvent board m pv.rank cur.rank pv.elo cur.elo]
    ∧ (rankChangeEvent board m pv.rank cur.rank pv.elo cur.elo).extraS "direction"
        = some (if cur.rank < pv.rank then "up" else "down")
    ∧ (rankChangeEvent board m pv.rank cur.rank pv.elo cur.elo).extraI "change"
        = some |pv.rank - cur.rank|
    ∧ (rankChangeEvent board m pv.rank cur.rank pv.elo cur.elo).extraI "previous_rank"
        = some pv.rank
    ∧ (rankChangeEvent board m pv.rank cur.rank pv.elo cur.elo).extraI "current_rank"
        = some cur.rank
    ∧ (rankChangeEvent board m pv.rank cur.rank pv.elo cur.elo).extraI "previous_elo"
        = some pv.elo
    ∧ (rankChangeEvent board m pv.rank cur.rank pv.elo cur.elo).extraI "current_elo"
        = some cur.elo := by
  refine ⟨?_, rfl, rfl, rfl, rfl, rfl, rfl⟩
  have hstep : checkLeaderboardApi maxRank board (.success data) state
      = (newEntryEvents board ((state (lbStateKey board)).getD emptySnapshot).models
            (buildCurrent maxRank data).1 (buildCurrent maxRank data).2
          ++ rankChangeEvents board
              ((state (lbStateKey board)).getD emptySnapshot).rankings
              (buildCurrent maxRank data).1
          ++ top3ChangeEvents board
              ((state (lbStateKey board)).getD emptySnapshot).top3
              (currentTop3From (buildCurrent maxRank data).1
                (buildCurrent maxRank data).2),
        updateStore state (lbStateKey board) (snapshotOf maxRank data)) := by
    simp [checkLeaderboardApi, hdata]
  rw [hstep]
  simp only [List.filter_append]
  have h1 : (newEntryEvents board
      ((state (lbStateKey board)).getD emptySnapshot).models
      (buildCurrent maxRank data).1 (buildCurrent maxRank data).2).filter
        (isRankChangeFor m) = [] := by
    refine List.filter_eq_nil_iff.2 (fun e he => ?_)
    have := (mem_newEntryEvents he).1
    simp [isRankChangeFor, this]
  have h3 : (top3ChangeEvents board
      ((state (lbStateKey board)).getD emptySnapshot).top3
      (currentTop3From (buildCurrent maxRank data).1
        (buildCurrent maxRank data).2)).filter (isRankChangeFor m) = [] := by
    refine List.filter_eq_nil_iff.2 (fun e he => ?_)
    obtain ⟨rfl, -, -⟩ := mem_top3ChangeEvents he
    simp [isRankChangeFor, top3ChangeEvent]
  have h2 : (rankChangeEvents board
      ((state (lbStateKey board)).getD emptySnapshot).rankings
      (buildCurrent maxRank data).1).filter (isRankChangeFor m)
        = [rankChangeEvent board m pv.rank cur.rank pv.elo cur.elo] := by
    rw [rankChangeEvents, if_neg (by simp [lookupA_isEmpty_false hpv])]
    exact rankChangeEventsCore_filter_single board m _ cur pv hpv hne _
      (buildCurrent_keys_nodup maxRank data) hcur
  rw [h1, h2, h3]
  rfl

/-- Witness for C5 at the spec's concrete example: previous
{rank 5, elo 1000}, current {rank 2, elo 1050} — exactly one rank-change
event with direction "up", change 3, and an ELO delta of +50. -/
theorem leaderboard_rank_change_exact_witness :
    ((checkLeaderboardApi 30 "text-to-image"
        (.success [⟨"M", 2, 1050, "i", "c"⟩])
        (fun k => if k = lbStateKey "text-to-image" then
            some ⟨[("M", ⟨5, 1000, "i", "c"⟩)], ["M"], [], 1⟩
          else none)).1.filter (isRankChangeFor "M"))
      = [rankChangeEvent "text-to-image" "M" 5 2 1000 1050]
    ∧ (rankChangeEvent "text-to-image" "M" 5 2 1000 1050).extraS "direction"
        = some "up"
    ∧ (rankChangeEvent "text-to-image" "M" 5 2 1000 1050).extraI "change" = some 3
    ∧ (rankChangeEvent "text-to-image" "M" 5 2 1000 1050).extraI "current_elo"
        = some 1050
    ∧ (rankChangeEvent "text-to-image" "M" 5 2 1000 1050).extraI "previous_elo"
        = some 1000 := by
  have h := leaderboard_rank_change_exact 30 "text-to-image" "M"
    [⟨"M", 2, 1050, "i", "c"⟩]
    (fun k => if k = lbStateKey "text-to-image" then
        some ⟨[("M", ⟨5, 1000, "i", "c"⟩)], ["M"], [], 1⟩
      else none)
    ⟨2, 1050, "i", "c"⟩ ⟨5, 1000, "i", "c"⟩
    (by decide) (by decide) (by decide) (by decide)
  exact ⟨h.1, by decide, by decide, by decide, by decide⟩

/-- C6 (amended): on a successful non-empty fetch the differ emits a
`leaderboard_top3_change` event for the board if and only if the previous
snapshot's top3 is non-empty and differs, under order-sensitive equality,
from the PRE-truncation current top-3 list (all tracked models with rank ≤ 3,
stably sorted); at most one such event is emitted, and it carries the
previous sequence together with the current list truncated to 3 (the two
carried sequences can therefore coincide when more than three models are
ranked ≤ 3). -/
theorem leaderboard_top3_change_iff (maxRank : Int) (board : String)
    (data : List RawModel) (state : LbStore) (hdata : data ≠ []) :
    ((checkLeaderboardApi maxRank board (.success data) state).1.filter
        isTop3Change)
      = (if ((state (lbStateKey board)).getD emptySnapshot).top3 ≠ []
            ∧ currentTop3Of maxRank data
              ≠ ((state (lbStateKey board)).getD emptySnapshot).top3
         then [top3ChangeEvent board
                ((state (lbStateKey board)).getD emptySnapshot).top3
                ((currentTop3Of maxRank data).take 3)]
         else [])
    ∧ (∀ pt ct : List String,
        (top3ChangeEvent board pt ct).extraL "previous_top3" = some pt
        ∧ (top3ChangeEvent board pt ct).extraL "current_top3" = some ct) := by
  refine ⟨?_, fun pt ct => ⟨rfl, rfl⟩⟩
  rw [checkLeaderboardApi_success maxRank board data state hdata]
  simp only [List.filter_append]
  have h1 : (newEntryEvents board
      ((state (lbStateKey board)).getD emptySnapshot).models
      (buildCurrent maxRank data).1 (buildCurrent maxRank data).2).filter
        isTop3Change = [] := by
    refine List.filter_eq_nil_iff.2 (fun e he => ?_)
    have := (mem_newEntryEvents he).1
    simp [isTop3Change, this]
  have h2 : (rankChangeEvents board
      ((state (lbStateKey board)).getD emptySnapshot).rankings
      (buildCurrent maxRank data).1).filter isTop3Change = [] := by
    refine List.filter_eq_nil_iff.2 (fun e he => ?_)
    have := (mem_rankChangeEvents he).1
    simp [isTop3Change, this]
  rw [h1, h2, top3ChangeEvents_eq]
  have hct : currentTop3Of maxRank data
      = currentTop3From (buildCurrent maxRank data).1 (buildCurrent maxRank data).2 :=
    rfl
  rw [hct]
  by_cases hc : ((state (lbStateKey board)).getD emptySnapshot).top3 ≠ []
      ∧ currentTop3From (buildCurrent maxRank data).1 (buildCurrent maxRank data).2
        ≠ ((state (lbStateKey board)).getD emptySnapshot).top3
  · rw [if_pos hc]
    simp [isTop3Change, top3ChangeEvent]
  · rw [if_neg hc]
    rfl

/-- Concrete reshuffle fetch used to witness C6: the same three models,
re-fetched in the order B, A, C with swapped leading ranks. -/
def c6Data : List RawModel :=
  [⟨"B", 1, 1500, "", "c"⟩, ⟨"A", 2, 1400, "", "c"⟩, ⟨"C", 3, 1300, "", "c"⟩]

/-- Concrete prior state used to witness C6: previous top3 is ["A","B","C"]. -/
def c6Store : LbStore := fun k =>
  if k = lbStateKey "text-to-image" then
    some ⟨[("A", ⟨1, 1500, "", "c"⟩), ("B", ⟨2, 1400, "", "c"⟩),
           ("C", ⟨3, 1300, "", "c"⟩)], ["A", "B", "C"], ["A", "B", "C"], 3⟩
  else none

/-- Witness for C6's amended theorem at the reshuffle instance: previous
top3 ["A","B","C"], same three models re-fetched with ranks making the
current top-3 list ["B","A","C"] — the event fires and carries both
sequences. -/
theorem leaderboard_top3_change_iff_witness :
    (c6Data ≠ [])
    ∧ (((checkLeaderboardApi 30 "text-to-image" (.success c6Data)
            c6Store).1.filter isTop3Change)
        = (if ((c6Store (lbStateKey "text-to-image")).getD emptySnapshot).top3 ≠ []
              ∧ currentTop3Of 30 c6Data
                ≠ ((c6Store (lbStateKey "text-to-image")).getD emptySnapshot).top3
           then [top3ChangeEvent "text-to-image"
                  ((c6Store (lbStateKey "text-to-image")).getD emptySnapshot).top3
                  ((currentTop3Of 30 c6Data).take 3)]
           else [])
      ∧ (∀ pt ct : List String,
          (top3ChangeEvent "text-to-image" pt ct).extraL "previous_top3" = some pt
          ∧ (top3ChangeEvent "text-to-image" pt ct).extraL "current_top3"
              = some ct)) :=
  ⟨by decide, leaderboard_top3_change_iff 30 "text-to-image" c6Data c6Store
    (by decide)⟩

/-- C6 counterexample: previous top3 ["A","B","C"]; the refreshed board has
the same A, B, C at ranks 1, 2, 3 plus a fourth model D also at rank 3.
The stored current top3 (["A","B","C"], after `[:3]` truncation) equals the
previous top3, yet one `leaderboard_top3_change` event is still emitted —
because the code compares the previous top3 against the pre-truncation list
["A","B","C","D"].  This refutes the claim that an event is emitted only
when the snapshot's (truncated) top3 sequence differs, and the emitted
event's two carried sequences are identical. -/
theorem leaderboard_top3_change_counterexample :
    ((checkLeaderboardApi 30 "text-to-image"
        (.success [⟨"A", 1, 1500, "", "c"⟩, ⟨"B", 2, 1400, "", "c"⟩,
          ⟨"C", 3, 1300, "", "c"⟩, ⟨"D", 3, 1200, "", "c"⟩])
        (fun k => if k = lbStateKey "text-to-image" then
            some ⟨[("A", ⟨1, 1500, "", "c"⟩), ("B", ⟨2, 1400, "", "c"⟩),
                   ("C", ⟨3, 1300, "", "c"⟩)], ["A", "B", "C"],
                  ["A", "B", "C"], 3⟩
          else none)).1.filter isTop3Change).length = 1
    ∧ (((checkLeaderboardApi 30 "text-to-image"
          (.success [⟨"A", 1, 1500, "", "c"⟩, ⟨"B", 2, 1400, "", "c"⟩,
            ⟨"C", 3, 1300, "", "c"⟩, ⟨"D", 3, 1200, "", "c"⟩])
          (fun k => if k = lbStateKey "text-to-image" then
              some ⟨[("A", ⟨1, 1500, "", "c"⟩), ("B", ⟨2, 1400, "", "c"⟩),
                     ("C", ⟨3, 1300, "", "c"⟩)], ["A", "B", "C"],
                    ["A", "B", "C"], 3⟩
            else none)).2 (lbStateKey "text-to-image")).getD
              emptySnapshot).top3 = ["A", "B", "C"] :=
  ⟨by decide, by decide⟩

/-- C10 (amended): when a board fetch succeeds with a NON-EMPTY raw model
list, any model `m` present in the previous snapshot but absent from the
maxRank-filtered current data receives no event mentioning it (only the
aggregate "Top 3" event could even name another model), and the newly
persisted snapshot no longer contains it in `models`, `rankings` or `top3`.
(When the raw list is empty the board is skipped and the old snapshot — and
`m` with it — is retained; see the counterexample.) -/
theorem leaderboard_dropped_model_forgotten (maxRank : Int) (board m : String)
    (data : List RawModel) (state : LbStore)
    (hdata : data ≠ [])
    (hprev : m ∈ ((state (lbStateKey board)).getD emptySnapshot).models)
    (hgone : m ∉ (buildCurrent maxRank data).2)
    (hname : m ≠ "Top 3") :
    (∀ e ∈ (checkLeaderboardApi maxRank board (.success data) state).1,
        e.modelName ≠ m)
    ∧ (checkLeaderboardApi maxRank board (.success data) state).2 (lbStateKey board)
        = some (snapshotOf maxRank data)
    ∧ m ∉ (snapshotOf maxRank data).models
    ∧ lookupA (snapshotOf maxRank data).rankings m = none
    ∧ m ∉ (snapshotOf maxRank data).top3 := by
  refine ⟨?_, ?_, hgone, ?_, ?_⟩
  · intro e he
    rw [checkLeaderboardApi_success maxRank board data state hdata] at he
    simp only [List.mem_append] at he
    rcases he with (he | he) | he
    · have := (mem_newEntryEvents he).2
      exact fun h => hgone (h ▸ this)
    · have h1 := (mem_rankChangeEvents he).2
      have h2 := buildCurrent_keys_sub maxRank data _ h1
      exact fun h => hgone (h ▸ h2)
    · obtain ⟨rfl, -, -⟩ := mem_top3ChangeEvents he
      exact fun h => hname h.symm
  · rw [checkLeaderboardApi_success maxRank board data state hdata]
    simp [updateStore]
  · refine lookupA_eq_none_of_not_mem (fun hk => ?_)
    exact hgone (buildCurrent_keys_sub maxRank data m hk)
  · intro hm
    have h1 : m ∈ sortByRank (buildCurrent maxRank data).1
        (((buildCurrent maxRank data).2).filter
          (fun x => decide (rankOfKey (buildCurrent maxRank data).1 x ≤ 3))) :=
      List.take_subset 3 _ hm
    exact hgone (List.mem_of_mem_filter (mem_sortByRank.1 h1))

/-- Witness for C10's amended theorem: the previous snapshot tracks "M", the
fresh data only contains "A", so "M" is silently forgotten. -/
theorem leaderboard_dropped_model_forgotten_witness :
    ([(⟨"A", 1, 1500, "", "c"⟩ : RawModel)] ≠ [])
    ∧ "M" ∈ ((((fun k => if k = lbStateKey "text-to-image" then
          some (⟨[("M", ⟨2, 1000, "", "c"⟩)], ["M"], ["M"], 1⟩ : Snapshot)
        else none) : LbStore) (lbStateKey "text-to-image")).getD
          emptySnapshot).models
    ∧ "M" ∉ (buildCurrent 30 [(⟨"A", 1, 1500, "", "c"⟩ : RawModel)]).2
    ∧ "M" ≠ "Top 3"
    ∧ ((∀ e ∈ (checkLeaderboardApi 30 "text-to-image"
            (.success [⟨"A", 1, 1500, "", "c"⟩])
            (fun k => if k = lbStateKey "text-to-image" then
                some ⟨[("M", ⟨2, 1000, "", "c"⟩)], ["M"], ["M"], 1⟩
              else none)).1, e.modelName ≠ "M")
        ∧ (checkLeaderboardApi 30 "text-to-image"
            (.success [⟨"A", 1, 1500, "", "c"⟩])
            (fun k => if k = lbStateKey "text-to-image" then
                some ⟨[("M", ⟨2, 1000, "", "c"⟩)], ["M"], ["M"], 1⟩
              else none)).2 (lbStateKey "text-to-image")
            = some (snapshotOf 30 [⟨"A", 1, 1500, "", "c"⟩])
        ∧ "M" ∉ (snapshotOf 30 [⟨"A", 1, 1500, "", "c"⟩]).models
        ∧ lookupA (snapshotOf 30 [⟨"A", 1, 1500, "", "c"⟩]).rankings "M" = none
        ∧ "M" ∉ (snapshotOf 30 [⟨"A", 1, 1500, "", "c"⟩]).top3) :=
  ⟨by decide, by decide, by decide, by decide,
    leaderboard_dropped_model_forgotten 30 "text-to-image" "M" _ _
      (by decide) (by decide) (by decide) (by decide)⟩

namespace LeaderboardWatcher

/-- A failed (or non-200) fetch is absorbed: no events, state untouched. -/
lemma checkLeaderboardApi_fail (maxRank : Int) (board : String) {f : FetchResult}
    (h : f.isFail = true) (st : LbStore) :
    checkLeaderboardApi maxRank board f st = ([], st) := by
  cases f with
  | success data => simp [FetchResult.isFail] at h
  | httpError c => rfl
  | exn => rfl

/-- Checking one board never writes another board's state key. -/
lemma checkLeaderboardApi_store_other (maxRank : Int) (board : String)
    (f : FetchResult) (st : LbStore) {k : String} (hk : k ≠ lbStateKey board) :
    (checkLeaderboardApi maxRank board f st).2 k = st k := by
  cases f with
  | httpError c => rfl
  | exn => rfl
  | success data =>
    by_cases hd : data = []
    · simp [checkLeaderboardApi, hd]
    · rw [checkLeaderboardApi_success maxRank board data st hd]
      simp [updateStore, hk]

lemma lbStateKey_inj {b1 b2 : String} (h : lbStateKey b1 = lbStateKey b2) :
    b1 = b2 := by
  have h2 := congrArg String.data h
  simp only [lbStateKey, String.data_append] at h2
  exact String.ext (List.append_cancel_left h2)

/-- Every event a rank-change pass emits is tagged with its board. -/
lemma extra_board_of_mem_rankChangeEvents {board : String}
    {prevR currR : List (String × RankInfo)} {e : WatchEvent}
    (h : e ∈ rankChangeEvents board prevR currR) :
    e.extraS "leaderboard" = some board := by
  rw [rankChangeEvents] at h
  by_cases hp : prevR.isEmpty
  · rw [if_pos hp] at h; cases h
  · rw [if_neg hp] at h
    obtain ⟨p, -, prev, -, -, rfl⟩ := mem_rankChangeEventsCore h
    rfl

/-- Every event one board check emits is tagged with that board's name. -/
lemma extraS_board_of_mem {maxRank : Int} {board : String} {f : FetchResult}
    {st : LbStore} {e : WatchEvent}
    (h : e ∈ (checkLeaderboardApi maxRank board f st).1) :
    e.extraS "leaderboard" = some board := by
  cases f with
  | httpError c => cases h
  | exn => cases h
  | success data =>
    by_cases hd : data = []
    · simp [checkLeaderboardApi, hd] at h
    · rw [checkLeaderboardApi_success maxRank board data st hd] at h
      simp only [List.mem_append] at h
      rcases h with (h | h) | h
      · simp only [newEntryEvents, List.mem_map] at h
        obtain ⟨m, -, rfl⟩ := h
        rfl
      · exact extra_board_of_mem_rankChangeEvents h
      · obtain ⟨rfl, -, -⟩ := mem_top3ChangeEvents h
        rfl

/-- A board whose fetch fails keeps its state slice across the whole cycle. -/
lemma lbFoldBoards_store_fail (maxRank : Int) (fetch : String → FetchResult)
    {b : String} (hb : (fetch b).isFail = true) :
    ∀ (boards : List String) (acc : List WatchEvent × LbStore),
      (lbFoldBoards maxRank fetch boards acc).2 (lbStateKey b)
        = acc.2 (lbStateKey b) := by
  intro boards
  induction boards with
  | nil => intro acc; rfl
  | cons b' rest ih =>
    intro acc
    by_cases hk : b' ∈ lbKnownBoards
    · simp only [lbFoldBoards, if_pos hk]
      rw [ih]
      by_cases hbb : b' = b
      · subst hbb
        rw [checkLeaderboardApi_fail maxRank b' hb]
      · exact checkLeaderboardApi_store_other maxRank b' (fetch b') acc.2
          (fun h => hbb (lbStateKey_inj h).symm)
    · simp only [lbFoldBoards, if_neg hk]
      exact ih acc

/-- Any event produced by the board loop either was in the accumulator or
comes from some listed board whose fetch did not fail. -/
lemma lbFoldBoards_events_src (maxRank : Int) (fetch : String → FetchResult) :
    ∀ (boards : List String) (acc : List WatchEvent × LbStore)
      (e : WatchEvent), e ∈ (lbFoldBoards maxRank fetch boards acc).1 →
      e ∈ acc.1 ∨ ∃ b' ∈ boards, (fetch b').isFail = false
        ∧ e.extraS "leaderboard" = some b' := by
  intro boards
  induction boards with
  | nil => intro acc e he; exact Or.inl he
  | cons b' rest ih =>
    intro acc e he
    by_cases hk : b' ∈ lbKnownBoards
    · simp only [lbFoldBoards, if_pos hk] at he
      rcases ih _ e he with h | ⟨b'', hb'', hf, hx⟩
      · rcases List.mem_append.1 h with h' | h'
        · exact Or.inl h'
        · rcases hfail : (fetch b').isFail with _ | _
          · exact Or.inr ⟨b', List.mem_cons_self _ _, hfail,
              extraS_board_of_mem h'⟩
          · rw [checkLeaderboardApi_fail maxRank b' hfail] at h'
            cases h'
      · exact Or.inr ⟨b'', List.mem_cons_of_mem _ hb'', hf, hx⟩
    · simp only [lbFoldBoards, if_neg hk] at he
      rcases ih _ e he with h | ⟨b'', hb'', hf, hx⟩
      · exact Or.inl h
      · exact Or.inr ⟨b'', List.mem_cons_of_mem _ hb'', hf, hx⟩

/-- When every fetch in the cycle fails, the board loop is a no-op. -/
lemma lbFoldBoards_all_fail (maxRank : Int) (fetch : String → FetchResult) :
    ∀ (boards : List String), (∀ b ∈ boards, (fetch b).isFail = true) →
      ∀ (acc : List WatchEvent × LbStore),
        lbFoldBoards maxRank fetch boards acc = acc := by
  intro boards
  induction boards with
  | nil => intro _ acc; rfl
  | cons b rest ih =>
    intro hall acc
    by_cases hk : b ∈ lbKnownBoards
    · simp only [lbFoldBoards, if_pos hk]
      rw [checkLeaderboardApi_fail maxRank b (hall b (List.mem_cons_self _ _))]
      simp only [List.append_nil]
      exact ih (fun b' hb' => hall b' (List.mem_cons_of_mem _ hb')) acc
    · simp only [lbFoldBoards, if_neg hk]
      exact ih (fun b' hb' => hall b' (List.mem_cons_of_mem _ hb')) acc

end LeaderboardWatcher

/-- Fail-soft facts for the leaderboard watcher: the all-fetches-fail call
is the identity on the prior state with no events, and a single failing
board keeps its state slice and contributes no events tagged with it. -/
lemma leaderboard_fail_soft (cfg : LbConfig) (fetch : String → FetchResult) :
    (∀ s : LbStore, (∀ b ∈ cfg.boards, (fetch b).isFail = true) →
      lbCheckUpdates cfg fetch (some s) = ([], s))
    ∧ (∀ (prior : Option LbStore) (b : String), (fetch b).isFail = true →
        ((lbCheckUpdates cfg fetch prior).2 (lbStateKey b)
            = (prior.getD (fun _ => none)) (lbStateKey b)
          ∧ ∀ e ∈ (lbCheckUpdates cfg fetch prior).1,
              e.extraS "leaderboard" ≠ some b)) := by
  constructor
  · intro s hall
    by_cases hapi : cfg.apiKeyPresent
    · simp only [lbCheckUpdates, hapi, not_true_eq_false, if_false,
        Option.getD_some]
      exact lbFoldBoards_all_fail cfg.maxRank fetch cfg.boards hall ([], s)
    · simp [lbCheckUpdates, hapi]
  · intro prior b hb
    by_cases hapi : cfg.apiKeyPresent
    · constructor
      · simp only [lbCheckUpdates, hapi, not_true_eq_false, if_false]
        exact lbFoldBoards_store_fail cfg.maxRank fetch hb cfg.boards _
      · intro e he hx
        simp only [lbCheckUpdates, hapi, not_true_eq_false, if_false] at he
        rcases lbFoldBoards_events_src cfg.maxRank fetch cfg.boards _ e he with
          h | ⟨b'', _, hf, hx'⟩
        · cases h
        · rw [hx] at hx'
          obtain rfl : b = b'' := Option.some_inj.1 hx'.symm ▸ rfl
          · rw [hb] at hf; cases hf
    · simp [lbCheckUpdates, hapi]

/-- Prior state used in C4's counterexample: the text-to-image board already
tracks "M" at rank 5. -/
def c4Store : LbStore := fun k =>
  if k = lbStateKey "text-to-image" then
    some ⟨[("M", ⟨5, 1000, "i", "c"⟩)], ["M"], [], 1⟩
  else none

/-- Fetch oracle used in C4's counterexample: the text-to-image board fetch
succeeds (with "M" moved to rank 2), the image-editing board fetch raises. -/
def c4Fetch : String → FetchResult := fun b =>
  if b = "text-to-image" then .success [⟨"M", 2, 1050, "i", "c"⟩] else .exn

/-- C4 counterexample: with two configured boards, one board's transient
fetch failure does NOT make `checkUpdates` return an empty event list with
the prior state — the other board's successful diff still contributes its
rank-change event, refuting the claim that ANY transient failure during the
call yields `(emptyEvents, priorState)`. -/
theorem leaderboard_fail_soft_counterexample :
    ("image-editing" ∈ (["text-to-image", "image-editing"] : List String))
    ∧ (c4Fetch "image-editing").isFail = true
    ∧ (lbCheckUpdates ⟨true, ["text-to-image", "image-editing"], 30⟩
        c4Fetch (some c4Store)).1 ≠ [] :=
  ⟨by decide, by decide, by decide⟩

namespace LeaderboardWatcher

/-- A fetch outcome under which a board's top-3 tie anomaly cannot occur:
at most three tracked models have rank ≤ 3 (vacuously true on failure). -/
def FetchResult.top3Small (maxRank : Int) : FetchResult → Bool
  | .success data => decide ((currentTop3Of maxRank data).length ≤ 3)
  | _ => true

/-- Re-checking a board whose stored snapshot already reflects the same
data is a no-op, provided at most three of its models are ranked ≤ 3. -/
lemma checkLeaderboardApi_self (maxRank : Int) (board : String)
    (data : List RawModel) (st : LbStore) (hd : data ≠ [])
    (hsnap : st (lbStateKey board) = some (snapshotOf maxRank data))
    (hlen : (currentTop3Of maxRank data).length ≤ 3) :
    checkLeaderboardApi maxRank board (.success data) st = ([], st) := by
  rw [checkLeaderboardApi_success maxRank board data st hd]
  have hprev : (st (lbStateKey board)).getD emptySnapshot
      = snapshotOf maxRank data := by rw [hsnap]; rfl
  rw [hprev]
  have h1 : newEntryEvents board (snapshotOf maxRank data).models
      (buildCurrent maxRank data).1 (buildCurrent maxRank data).2 = [] := by
    rw [newEntryEvents, List.map_eq_nil_iff]
    refine List.filter_eq_nil_iff.2 (fun m hm => ?_)
    simp only [decide_eq_true_eq, not_not]
    exact List.mem_dedup.1 hm
  have h2 : rankChangeEvents board (snapshotOf maxRank data).rankings
      (buildCurrent maxRank data).1 = [] := by
    rw [rankChangeEvents]
    by_cases hp : ((snapshotOf maxRank data).rankings : List _).isEmpty
    · rw [if_pos hp]
    · rw [if_neg hp]
      rw [rankChangeEventsCore]
      refine List.filterMap_eq_nil_iff.2 (fun p hp' => ?_)
      have hl : lookupA (buildCurrent maxRank data).1 p.1 = some p.2 := by
        obtain ⟨p1, p2⟩ := p
        exact lookupA_eq_some_of_mem (buildCurrent_keys_nodup maxRank data) hp'
      rw [show (snapshotOf maxRank data).rankings
          = (buildCurrent maxRank data).1 from rfl, hl]
      simp
  have h3 : top3ChangeEvents board (snapshotOf maxRank data).top3
      (currentTop3From (buildCurrent maxRank data).1
        (buildCurrent maxRank data).2) = [] := by
    rw [top3ChangeEvents_eq]
    have htop : (snapshotOf maxRank data).top3
        = currentTop3From (buildCurrent maxRank data).1
            (buildCurrent maxRank data).2 := by
      rw [show (snapshotOf maxRank data).top3
          = (currentTop3From (buildCurrent maxRank data).1
              (buildCurrent maxRank data).2).take 3 from rfl]
      exact List.take_of_length_le hlen
    rw [if_neg]
    rw [htop]
    simp
  rw [h1, h2, h3]
  refine Prod.ext rfl ?_
  funext q
  show (if q = lbStateKey board then some (snapshotOf maxRank data) else st q) = st q
  by_cases hq : q = lbStateKey board
  · rw [if_pos hq, hq, hsnap]
  · rw [if_neg hq]

/-- If the store already reflects every successfully fetched board's data,
the whole board loop is a no-op (provided the top-3 tie bound holds). -/
lemma lbFoldBoards_noop (maxRank : Int) (fetch : String → FetchResult) :
    ∀ (boards : List String) (st : LbStore),
      (∀ b ∈ boards, b ∈ lbKnownBoards → ∀ data, fetch b = .success data →
        data ≠ [] → st (lbStateKey b) = some (snapshotOf maxRank data)
          ∧ (currentTop3Of maxRank data).length ≤ 3) →
      ∀ evs : List WatchEvent, lbFoldBoards maxRank fetch boards (evs, st)
        = (evs, st) := by
  intro boards
  induction boards with
  | nil => intro _ _ _; rfl
  | cons b rest ih =>
    intro st hinv evs
    by_cases hk : b ∈ lbKnownBoards
    · simp only [lbFoldBoards, if_pos hk]
      have hstep : checkLeaderboardApi maxRank b (fetch b) st = ([], st) := by
        rcases hf : fetch b with data | c | _
        · by_cases hd : data = []
          · subst hd; simp [checkLeaderboardApi]
          · obtain ⟨hsnap, hlen⟩ :=
              hinv b (List.mem_cons_self _ _) hk data hf hd
            exact checkLeaderboardApi_self maxRank b data st hd hsnap hlen
        · rfl
        · rfl
      rw [hstep]
      simp only [List.append_nil]
      exact ih st (fun b' hb' => hinv b' (List.mem_cons_of_mem _ hb')) evs
    · simp only [lbFoldBoards, if_neg hk]
      exact ih st (fun b' hb' => hinv b' (List.mem_cons_of_mem _ hb')) evs

/-- A board not in the remaining list keeps its state slice. -/
lemma lbFoldBoards_store_not_mem (maxRank : Int) (fetch : String → FetchResult) :
    ∀ (boards : List String) (acc : List WatchEvent × LbStore) (b : String),
      b ∉ boards →
      (lbFoldBoards maxRank fetch boards acc).2 (lbStateKey b)
        = acc.2 (lbStateKey b) := by
  intro boards
  induction boards with
  | nil => intro acc b _; rfl
  | cons b' rest ih =>
    intro acc b hb
    have hb1 : b ≠ b' := fun h => hb (h ▸ List.mem_cons_self _ _)
    have hb2 : b ∉ rest := fun h => hb (List.mem_cons_of_mem _ h)
    by_cases hk : b' ∈ lbKnownBoards
    · simp only [lbFoldBoards, if_pos hk]
      rw [ih _ b hb2]
      exact checkLeaderboardApi_store_other maxRank b' (fetch b') acc.2
        (fun h => hb1 (lbStateKey_inj h))
    · simp only [lbFoldBoards, if_neg hk]
      exact ih acc b hb2

/-- After the board loop, every successfully fetched non-empty listed board
holds the snapshot computed from its data. -/
lemma lbFoldBoards_store_success (maxRank : Int) (fetch : String → FetchResult) :
    ∀ (boards : List String) (acc : List WatchEvent × LbStore) (b : String)
      (data : List RawModel), b ∈ boards → b ∈ lbKnownBoards →
      fetch b = .success data → data ≠ [] →
      (lbFoldBoards maxRank fetch boards acc).2 (lbStateKey b)
        = some (snapshotOf maxRank data) := by
  intro boards
  induction boards with
  | nil => intro _ b _ hb; cases hb
  | cons b' rest ih =>
    intro acc b data hb hkn hf hd
    by_cases hbr : b ∈ rest
    · by_cases hk : b' ∈ lbKnownBoards
      · simp only [lbFoldBoards, if_pos hk]
        exact ih _ b data hbr hkn hf hd
      · simp only [lbFoldBoards, if_neg hk]
        exact ih _ b data hbr hkn hf hd
    · have hbb : b = b' := (List.mem_cons.1 hb).resolve_right hbr
      subst hbb
      simp only [lbFoldBoards, if_pos hkn]
      rw [lbFoldBoards_store_not_mem maxRank fetch rest _ b hbr]
      rw [hf, checkLeaderboardApi_success maxRank b data acc.2 hd]
      simp [updateStore]

end LeaderboardWatcher

namespace ArxivWatcher

/-- One parsed entry of the arXiv Atom feed, as `_parse_arxiv_response`
produces it (`src/watchers/arxiv_watcher.py`, lines 79–147); presentation
fields (title, summary, published, url) are not modelled. -/
structure ArxivPaper where
  id : String
  arxivId : String
  authors : List String
  categories : List String
deriving DecidableEq, Repr

/-- The arXiv watcher's state dict: its only key, `seen_paper_ids`. -/
structure ArxivState where
  seenPaperIds : List String
deriving DecidableEq, Repr

/-- A `new_paper` event (`src/watchers/arxiv_watcher.py`, lines 57–70). -/
def newPaperEvent (modelName : String) (p : ArxivPaper) : WatchEvent :=
  { source := "arxiv"
    eventType := "new_paper"
    modelName := modelName
    extraData := [("arxiv_id", .str p.arxivId),
                  ("authors", .strList (p.authors.take 5)),
                  ("categories", .strList p.categories)]
    releaseStage := .unknown }

/-- The `for paper in papers` loop (lines 51–70): a paper whose id is
already seen is skipped; otherwise its id is added to the seen set and an
event is appended. -/
def arxivStep (modelName : String) (acc : List String × List WatchEvent)
    (p : ArxivPaper) : List String × List WatchEvent :=
  if p.id ∈ acc.1 then acc
  else (acc.1 ++ [p.id], acc.2 ++ [newPaperEvent modelName p])

/-- Python `list(seen_ids)[-100:]`: the last `n` entries. -/
def takeLast {α : Type} (n : Nat) (l : List α) : List α := l.drop (l.length - n)

/-- Function `ArxivWatcher.check_updates` (`src/watchers/arxiv_watcher.py`, lines
25–77): no query means no work; a fetch failure (exception or non-200)
returns the (copied) prior state; a fetched paper list is diffed against
the seen-id set and the seen set (deduplicated, capped at the most recent
100) is stored.  Python's `set` iteration order is modelled as insertion
order. -/
def arxivCheckUpdates (modelName : String) (hasQuery : Bool)
    (fetch : Option (List ArxivPaper)) (prior : Option ArxivState) :
    List WatchEvent × ArxivState :=
  if ¬hasQuery then ([], prior.getD ⟨[]⟩)
  else
    let st0 := prior.getD ⟨[]⟩
    match fetch with
    | none => ([], st0)
    | some papers =>
      let r := papers.foldl (arxivStep modelName) (st0.seenPaperIds, [])
      (r.2, ⟨takeLast 100 r.1.dedup⟩)

/-- The paper loop only ever grows the seen set. -/
lemma arxivFold_seen_mono (modelName : String) :
    ∀ (papers : List ArxivPaper) (acc : List String × List WatchEvent)
      (x : String), x ∈ acc.1 →
      x ∈ (papers.foldl (arxivStep modelName) acc).1 := by
  intro papers
  induction papers with
  | nil => intro acc x hx; exact hx
  | cons p rest ih =>
    intro acc x hx
    simp only [List.foldl_cons]
    refine ih _ x ?_
    rw [arxivStep]
    by_cases hp : p.id ∈ acc.1
    · rw [if_pos hp]; exact hx
    · rw [if_neg hp]; exact List.mem_append_left _ hx

/-- After the paper loop, every processed paper's id is in the seen set. -/
lemma arxivFold_seen_covers (modelName : String) :
    ∀ (papers : List ArxivPaper) (acc : List String × List WatchEvent)
      (p : ArxivPaper), p ∈ papers →
      p.id ∈ (papers.foldl (arxivStep modelName) acc).1 := by
  intro papers
  induction papers with
  | nil => intro _ p hp; cases hp
  | cons q rest ih =>
    intro acc p hp
    rcases List.mem_cons.1 hp with rfl | hp'
    · simp only [List.foldl_cons]
      refine arxivFold_seen_mono modelName rest _ p.id ?_
      rw [arxivStep]
      by_cases hq : p.id ∈ acc.1
      · rw [if_pos hq]; exact hq
      · rw [if_neg hq]; exact List.mem_append_right _ (List.mem_singleton.2 rfl)
    · simp only [List.foldl_cons]
      exact ih _ p hp'

/-- If every paper's id is already seen, the paper loop changes nothing. -/
lemma arxivFold_noop (modelName : String) :
    ∀ (papers : List ArxivPaper) (acc : List String × List WatchEvent),
      (∀ p ∈ papers, p.id ∈ acc.1) →
      papers.foldl (arxivStep modelName) acc = acc := by
  intro papers
  induction papers with
  | nil => intro _ _; rfl
  | cons p rest ih =>
    intro acc hall
    simp only [List.foldl_cons]
    rw [arxivStep, if_pos (hall p (List.mem_cons_self _ _))]
    exact ih acc (fun q hq => hall q (List.mem_cons_of_mem _ hq))

lemma takeLast_of_length_le {α : Type} {n : Nat} {l : List α}
    (h : l.length ≤ n) : takeLast n l = l := by
  rw [takeLast, Nat.sub_eq_zero_of_le h, List.drop_zero]

/-- The 100-id cap is not hit for this prior seen list and fetch outcome:
the merged, deduplicated seen set fits in the cap (vacuous on failure). -/
def seenCapOk (modelName : String) (priorSeen : List String) :
    Option (List ArxivPaper) → Bool
  | some papers =>
    decide (((papers.foldl (arxivStep modelName)
      (priorSeen, [])).1.dedup).length ≤ 100)
  | none => true

end ArxivWatcher

/-- C9 (amended): idempotence of the two stateful diff watchers whose code
the claim cites, under the side conditions the counterexample shows to be
necessary.  Leaderboard: when the same fetch outcomes are observed by two
consecutive `checkUpdates` calls and every successfully fetched non-empty
board has at most three models ranked ≤ 3, the second call returns an empty
event list.  arXiv: when the upstream paper list is unchanged and the
merged, deduplicated seen-id set fits the 100-entry cap, the second call
returns an empty event list. -/
theorem watcher_idempotence
    (cfg : LbConfig) (fetch : String → FetchResult) (prior : Option LbStore)
    (modelName : String) (hasQuery : Bool)
    (afetch : Option (List ArxivWatcher.ArxivPaper))
    (aprior : Option ArxivWatcher.ArxivState)
    (hsmall : ∀ b ∈ cfg.boards, (fetch b).top3Small cfg.maxRank = true)
    (hcap : ArxivWatcher.seenCapOk modelName
      ((aprior.getD ⟨[]⟩).seenPaperIds) afetch = true) :
    (lbCheckUpdates cfg fetch (some (lbCheckUpdates cfg fetch prior).2)).1 = []
    ∧ (ArxivWatcher.arxivCheckUpdates modelName hasQuery afetch
        (some (ArxivWatcher.arxivCheckUpdates modelName hasQuery afetch
          aprior).2)).1 = [] := by
  constructor
  · by_cases hapi : cfg.apiKeyPresent
    · have hst1 : ∀ b ∈ cfg.boards, b ∈ lbKnownBoards → ∀ data,
          fetch b = .success data → data ≠ [] →
          (lbCheckUpdates cfg fetch prior).2 (lbStateKey b)
              = some (snapshotOf cfg.maxRank data)
            ∧ (currentTop3Of cfg.maxRank data).length ≤ 3 := by
        intro b hb hkn data hf hd
        constructor
        · simp only [lbCheckUpdates, hapi, not_true_eq_false, if_false]
          exact lbFoldBoards_store_success cfg.maxRank fetch cfg.boards _
            b data hb hkn hf hd
        · have hs := hsmall b hb
          rw [hf] at hs
          simpa [FetchResult.top3Small] using hs
      generalize hgen : (lbCheckUpdates cfg fetch prior).2 = st1 at hst1 ⊢
      simp only [lbCheckUpdates, hapi, not_true_eq_false, if_false,
        Option.getD_some]
      rw [lbFoldBoards_noop cfg.maxRank fetch cfg.boards st1 hst1 []]
    · simp [lbCheckUpdates, hapi]
  · by_cases hq : hasQuery
    · rcases afetch with _ | papers
      · simp [ArxivWatcher.arxivCheckUpdates, hq]
      · have hcap' : ((papers.foldl (ArxivWatcher.arxivStep modelName)
            ((aprior.getD ⟨[]⟩).seenPaperIds, [])).1.dedup).length ≤ 100 := by
          simpa [ArxivWatcher.seenCapOk] using hcap
        have hall : ∀ p ∈ papers, p.id ∈
            ((papers.foldl (ArxivWatcher.arxivStep modelName)
              ((aprior.getD ⟨[]⟩).seenPaperIds, [])).1.dedup) := fun p hp =>
          List.mem_dedup.2
            (ArxivWatcher.arxivFold_seen_covers modelName papers _ p hp)
        simp only [ArxivWatcher.arxivCheckUpdates, hq, not_true_eq_false,
          if_false, Option.getD_some]
        rw [ArxivWatcher.takeLast_of_length_le hcap']
        rw [ArxivWatcher.arxivFold_noop modelName papers _ hall]
    · simp [ArxivWatcher.arxivCheckUpdates, hq]

/-- Concrete board fetch for C9's witness: one model at rank 1. -/
def c9Fetch : String → LeaderboardWatcher.FetchResult :=
  fun _ => .success [⟨"A", 1, 1500, "", "c"⟩]

/-- Concrete paper fetch for C9's witness. -/
def c9Papers : List ArxivWatcher.ArxivPaper :=
  [⟨"p1", "2401.00001", ["x"], ["cs.AI"]⟩]

/-- Witness for C9's amended theorem: a fresh leaderboard run followed by a
re-check of the same data, and a fresh arXiv run re-checked on the same
paper list — both second calls yield no events. -/
theorem watcher_idempotence_witness :
    (∀ b ∈ (["text-to-image"] : List String), (c9Fetch b).top3Small 30 = true)
    ∧ ArxivWatcher.seenCapOk "M"
        (((none : Option ArxivWatcher.ArxivState).getD ⟨[]⟩).seenPaperIds)
        (some c9Papers) = true
    ∧ ((lbCheckUpdates ⟨true, ["text-to-image"], 30⟩ c9Fetch
          (some (lbCheckUpdates ⟨true, ["text-to-image"], 30⟩ c9Fetch
            none).2)).1 = []
      ∧ (ArxivWatcher.arxivCheckUpdates "M" true (some c9Papers)
          (some (ArxivWatcher.arxivCheckUpdates "M" true (some c9Papers)
            none).2)).1 = []) :=
  ⟨by decide, by decide,
    watcher_idempotence ⟨true, ["text-to-image"], 30⟩ c9Fetch none "M" true
      (some c9Papers) none (by decide) (by decide)⟩

/-- Board data for C9's counterexample: four models ranked ≤ 3 (a tie at
rank 3). -/
def c9DupData : List RawModel :=
  [⟨"A", 1, 1500, "", "c"⟩, ⟨"B", 2, 1400, "", "c"⟩,
   ⟨"C", 3, 1300, "", "c"⟩, ⟨"D", 3, 1200, "", "c"⟩]

/-- C9 counterexample: the leaderboard watcher re-checked on IDENTICAL
upstream data emits an event the second time — the stored top3 was
truncated to 3 entries but is compared against the 4-entry pre-truncation
list, so a `leaderboard_top3_change` event fires on every cycle.  This
refutes the unconditional idempotence law. -/
theorem watcher_idempotence_counterexample :
    (lbCheckUpdates ⟨true, ["text-to-image"], 30⟩ (fun _ => .success c9DupData)
      (some (lbCheckUpdates ⟨true, ["text-to-image"], 30⟩
        (fun _ => .success c9DupData) none).2)).1 ≠ [] := by
  decide

namespace WatcherService

/-- Dataclass `PriorityModelConfig` (`src/utils/config_loader.py`, lines 43–58); only
the fields the router reads are modelled. -/
structure PriorityModelConfig where
  name : String
  mentionChannel : Bool
deriving DecidableEq, Repr

/-- Dataclass `ModelConfig` (`src/utils/config_loader.py`, lines 11–40): the fields
the priority logic reads. -/
structure ModelConfigL where
  name : String
  priority : String
deriving DecidableEq, Repr

/-- The configuration slice `run_once` and the priority helpers read. -/
structure RouterConfig where
  priorityModels : List PriorityModelConfig
  models : List ModelConfigL
deriving DecidableEq, Repr

/-- Function `Config.get_priority_config` (`src/utils/config_loader.py`, lines
220–225): first configured priority model whose name matches
case-insensitively. -/
def getPriorityConfig (cfg : RouterConfig) (name : String) :
    Option PriorityModelConfig :=
  cfg.priorityModels.find? (fun pm => lowerStr pm.name == lowerStr name)

/-- Function `Config.is_priority_model` (`src/utils/config_loader.py`, lines
227–236). -/
def isPriorityModel (cfg : RouterConfig) (name : String) : Bool :=
  (getPriorityConfig cfg name).isSome ||
    cfg.models.any (fun m => lowerStr m.name == lowerStr name
      && lowerStr m.priority == "high")

/-- Function `Config.get_priority_model_names` (`src/utils/config_loader.py`, lines
238–246); the Python set is modelled as the insertion-order list (only
membership is consumed). -/
def priorityModelNames (cfg : RouterConfig) : List String :=
  cfg.priorityModels.map (fun pm => lowerStr pm.name)
    ++ (cfg.models.filter (fun m => lowerStr m.priority == "high")).map
        (fun m => lowerStr m.name)

/-- Function `WatcherService._mark_priority_events` (`src/main.py`, lines 168–180):
events of priority models get `is_priority` / `priority_model` flags set in
their `extra_data` (in place in Python; as a map here). -/
def markPriorityEvents (cfg : RouterConfig) (events : List WatchEvent) :
    List WatchEvent :=
  events.map (fun e =>
    if (priorityModelNames cfg).contains (lowerStr e.modelName) then
      { e with extraData := upsertA (upsertA e.extraData "is_priority"
          (.bool true)) "priority_model" (.bool true) }
    else e)

/-- The five buckets lines 190–200 of `WatcherService.run_once` produce. -/
structure RouteBuckets where
  priority : List WatchEvent
  announcements : List WatchEvent
  launches : List WatchEvent
  leaderboardEvents : List WatchEvent
  other : List WatchEvent
deriving DecidableEq, Repr

/-- Lines 190–200 of `WatcherService.run_once`: mark priority events, split
them into priority vs normal by `_is_priority_event`, and split normal by
release stage, source, and the membership-based remainder
(`e not in announcements + launches + leaderboard_events`). -/
def routeEvents (cfg : RouterConfig) (events : List WatchEvent) :
    RouteBuckets :=
  let marked := markPriorityEvents cfg events
  let priorityEvents := marked.filter (fun e => isPriorityModel cfg e.modelName)
  let normalEvents := marked.filter (fun e => !isPriorityModel cfg e.modelName)
  let announcements := normalEvents.filter
      (fun e => decide (e.releaseStage = .announced))
  let launches := normalEvents.filter
      (fun e => decide (e.releaseStage = .launched))
  let leaderboardEvents := normalEvents.filter
      (fun e => decide (e.source = "leaderboard"))
  let otherEvents := normalEvents.filter
      (fun e => decide (e ∉ announcements ++ launches ++ leaderboardEvents))
  ⟨priorityEvents, announcements, launches, leaderboardEvents, otherEvents⟩

/-- Marking an event never changes its source, type, name or stage. -/
lemma mem_markPriorityEvents {cfg : RouterConfig} {events : List WatchEvent}
    {e' : WatchEvent} (h : e' ∈ markPriorityEvents cfg events) :
    ∃ e ∈ events, e'.source = e.source ∧ e'.releaseStage = e.releaseStage
      ∧ e'.modelName = e.modelName := by
  simp only [markPriorityEvents, List.mem_map] at h
  obtain ⟨e, he, rfl⟩ := h
  refine ⟨e, he, ?_⟩
  by_cases hp : (priorityModelNames cfg).contains (lowerStr e.modelName)
  · rw [if_pos hp]; exact ⟨rfl, rfl, rfl⟩
  · rw [if_neg hp]; exact ⟨rfl, rfl, rfl⟩

/-- The notifier's configured mention-type list
(`SlackNotifier.mention_channel_for`, `src/notifiers/slack.py`, line 60). -/
structure NotifierState where
  mentionChannelFor : List String
deriving DecidableEq, Repr

/-- Lines 207–225 of `WatcherService.run_once`: dispatch of one priority
event.  When its priority config sets `mention_channel`, the event's type is
temporarily appended to the notifier's mention list for that single send and
the saved copy is restored afterwards; the send outcome (the oracle `send`,
modelling `SlackNotifier.send_event`, which reads but never mutates the
mention list) only affects the success tally. -/
def sendPriorityEvent (cfg : RouterConfig)
    (send : NotifierState → WatchEvent → Bool) (st : NotifierState)
    (ev : WatchEvent) : NotifierState × Nat :=
  match getPriorityConfig cfg ev.modelName with
  | some pc =>
    if pc.mentionChannel then
      let originalMentionList := st.mentionChannelFor
      let st1 := if ev.eventType ∈ st.mentionChannelFor then st
        else { st with
          mentionChannelFor := st.mentionChannelFor ++ [ev.eventType] }
      let sent := if send st1 ev then 1 else 0
      ({ st1 with mentionChannelFor := originalMentionList }, sent)
    else (st, if send st ev then 1 else 0)
  | none => (st, if send st ev then 1 else 0)

/-- An abstract watcher as `check_all` sees it: a state key and the diff
protocol `check_updates` (`src/watchers/base.py`, lines 74–89). -/
structure WatcherM (σ : Type) where
  key : String
  check : Option σ → List WatchEvent × σ

/-- The loop of `WatcherService.check_all` (`src/main.py`, lines 134–157):
read the watcher's prior state, detect first run (`last_state is None`),
call the diff protocol, aggregate the returned events only when not a first
run, and save the new state unconditionally.  (The per-watcher `try/except`
is not modelled: the embedded `check` is total.) -/
def checkAllAux {σ : Type} (acc : List WatchEvent × (String → Option σ)) :
    List (WatcherM σ) → List WatchEvent × (String → Option σ)
  | [] => acc
  | w :: rest =>
    let lastState := acc.2 w.key
    let isFirstRun := lastState.isNone
    let r := w.check lastState
    let events := if isFirstRun then acc.1 else acc.1 ++ r.1
    checkAllAux (events, fun k => if k = w.key then some r.2 else acc.2 k) rest

/-- Function `WatcherService.check_all` (`src/main.py`, lines 128–162). -/
def checkAll {σ : Type} (ws : List (WatcherM σ))
    (store : String → Option σ) : List WatchEvent × (String → Option σ) :=
  checkAllAux ([], store) ws

end WatcherService

/-- C10 counterexample: if the successful fetch returns an EMPTY raw model
list, the board is skipped entirely: the persisted snapshot still contains
the vanished model "M" in `models` (and `rankings`, `top3`), although "M"
is absent from the maxRank-filtered current data — refuting the claim that
such a model is always forgotten. -/
theorem leaderboard_dropped_model_counterexample :
    ((((checkLeaderboardApi 30 "text-to-image" (.success [])
        (fun k => if k = lbStateKey "text-to-image" then
            some ⟨[("M", ⟨2, 1000, "", "c"⟩)], ["M"], ["M"], 1⟩
          else none)).2 (lbStateKey "text-to-image")).getD
            emptySnapshot).models = ["M"])
    ∧ "M" ∉ (buildCurrent 30 ([] : List RawModel)).2
    ∧ (checkLeaderboardApi 30 "text-to-image" (.success [])
        (fun k => if k = lbStateKey "text-to-image" then
            some ⟨[("M", ⟨2, 1000, "", "c"⟩)], ["M"], ["M"], 1⟩
          else none)).1 = [] :=
  ⟨by decide, by decide, by decide⟩

open WatcherService

/-- C7 (confirmed): after dispatching a priority event whose priority
configuration has `mentionChannel = true`, the notifier's configured
mention-type list is exactly (same length, same contents, same order) what
it was before the send, for every send oracle — whether or not the send
succeeded. -/
theorem priority_mention_restored (cfg : RouterConfig)
    (send : NotifierState → WatchEvent → Bool) (st : NotifierState)
    (ev : WatchEvent) (pc : PriorityModelConfig)
    (hpc : getPriorityConfig cfg ev.modelName = some pc)
    (hmc : pc.mentionChannel = true) :
    (sendPriorityEvent cfg send st ev).1.mentionChannelFor
      = st.mentionChannelFor := by
  simp [sendPriorityEvent, hpc, hmc]

/-- Witness for C7 with a failing send oracle and an event type not yet in
the mention list (so the override actually appends and then restores). -/
theorem priority_mention_restored_witness :
    getPriorityConfig ⟨[⟨"m", true⟩], []⟩ "m"
        = some (⟨"m", true⟩ : PriorityModelConfig)
    ∧ (⟨"m", true⟩ : PriorityModelConfig).mentionChannel = true
    ∧ (sendPriorityEvent ⟨[⟨"m", true⟩], []⟩ (fun _ _ => false)
        ⟨["release_launched"]⟩
        ⟨"github", "new_commit", "m", [], .unknown⟩).1.mentionChannelFor
      = (⟨["release_launched"]⟩ : NotifierState).mentionChannelFor :=
  ⟨by decide, by decide,
    priority_mention_restored ⟨[⟨"m", true⟩], []⟩ (fun _ _ => false)
      ⟨["release_launched"]⟩ ⟨"github", "new_commit", "m", [], .unknown⟩
      ⟨"m", true⟩ (by decide) (by decide)⟩

namespace WatcherService

/-- The event accumulator only prefixes the orchestrator loop's output, and
the final store is independent of it. -/
lemma checkAllAux_split {σ : Type} :
    ∀ (ws : List (WatcherM σ)) (evs : List WatchEvent)
      (st : String → Option σ),
      checkAllAux (evs, st) ws
        = (evs ++ (checkAllAux ([], st) ws).1, (checkAllAux ([], st) ws).2) := by
  intro ws
  induction ws with
  | nil => intro evs st; simp [checkAllAux]
  | cons w rest ih =>
    intro evs st
    rcases hs : st w.key with _ | s
    · simp only [checkAllAux, hs, Option.isNone_none, if_true]
      rw [ih evs _, ih [] _]
    · simp only [checkAllAux, hs, Option.isNone_some, Bool.false_eq_true,
        if_false]
      rw [ih (evs ++ (w.check (some s)).1) _, ih ([] ++ (w.check (some s)).1) _]
      simp [List.append_assoc]

/-- A key not belonging to any remaining watcher keeps its store value. -/
lemma checkAllAux_store_not_mem {σ : Type} :
    ∀ (ws : List (WatcherM σ)) (acc : List WatchEvent × (String → Option σ))
      (k : String), k ∉ ws.map (fun w => w.key) →
      (checkAllAux acc ws).2 k = acc.2 k := by
  intro ws
  induction ws with
  | nil => intro acc k _; rfl
  | cons w rest ih =>
    intro acc k hk
    have hk1 : k ≠ w.key := fun h => hk (by simp [h])
    have hk2 : k ∉ rest.map (fun w => w.key) := fun h => hk (by simp [h])
    simp only [checkAllAux]
    rw [ih _ k hk2]
    simp [hk1]

/-- The `check_all` variant of the previous lemma. -/
lemma checkAll_store_not_mem {σ : Type} (ws : List (WatcherM σ))
    (st : String → Option σ) (k : String)
    (hk : k ∉ ws.map (fun w => w.key)) : (checkAll ws st).2 k = st k :=
  checkAllAux_store_not_mem ws ([], st) k hk

/-- C8 (confirmed): in one orchestrator cycle over watchers with distinct
state keys, (a) the aggregated event list contains exactly, in order, the
events of the watchers whose prior state was present — a watcher whose
stored prior state is absent (first run) contributes zero events; and
(b) every watcher's `newState`, as returned by `checkUpdates` on its prior
state, is persisted under its state key — also on a first run. -/
theorem orchestrator_first_run_suppression {σ : Type}
    (ws : List (WatcherM σ)) (store : String → Option σ)
    (hnd : (ws.map (fun w => w.key)).Nodup) :
    (checkAll ws store).1
        = ws.flatMap (fun w => match store w.key with
            | none => []
            | some s => (w.check (some s)).1)
    ∧ ∀ w ∈ ws, (checkAll ws store).2 w.key = some (w.check (store w.key)).2 := by
  induction ws generalizing store with
  | nil => exact ⟨rfl, fun w hw => absurd hw (List.not_mem_nil w)⟩
  | cons w rest ih =>
    rw [List.map_cons, List.nodup_cons] at hnd
    have hrest := ih (fun k => if k = w.key then some (w.check (store w.key)).2
      else store k) hnd.2
    have hagree : ∀ w' ∈ rest,
        ((fun k => if k = w.key then some (w.check (store w.key)).2
          else store k) w'.key) = store w'.key := by
      intro w' hw'
      have hne : w'.key ≠ w.key := by
        intro h
        exact hnd.1 (h ▸ List.mem_map_of_mem (fun w => w.key) hw')
      show (if w'.key = w.key then _ else _) = _
      rw [if_neg hne]
    have hstep : checkAll (w :: rest) store
        = ((if (store w.key).isNone then []
            else [] ++ (w.check (store w.key)).1)
            ++ (checkAll rest (fun k => if k = w.key
                then some (w.check (store w.key)).2 else store k)).1,
          (checkAll rest (fun k => if k = w.key
              then some (w.check (store w.key)).2 else store k)).2) := by
      show checkAllAux _ _ = _
      simp only [checkAllAux]
      rw [checkAllAux_split]
      rfl
    constructor
    · rw [hstep]
      show _ ++ (checkAll rest _).1 = _
      rw [hrest.1, List.flatMap_cons]
      congr 1
      · rcases hs : store w.key with _ | s
        · simp [hs]
        · simp [hs]
      · refine List.flatMap_congr (fun w' hw' => ?_)
        rw [hagree w' hw']
    · intro w' hw'
      rw [hstep]
      rcases List.mem_cons.1 hw' with rfl | hw''
      · show (checkAll rest _).2 w'.key = _
        rw [checkAll_store_not_mem rest _ w'.key hnd.1]
        simp
      · show (checkAll rest _).2 w'.key = _
        rw [hrest.2 w' hw'', hagree w' hw'']

end WatcherService

/-- One concrete event used by C8's witness. -/
def c8Ev1 : WatchEvent := ⟨"github", "new_commit", "m1", [], .unknown⟩

/-- Another concrete event used by C8's witness. -/
def c8Ev2 : WatchEvent := ⟨"arxiv", "new_paper", "m2", [], .unknown⟩

/-- Concrete watcher pair for C8's witness: watcher "a" runs first-run
(no stored state), watcher "b" has prior state. -/
def c8Watchers : List (WatcherM Nat) :=
  [⟨"a", fun _ => ([c8Ev1], 1)⟩, ⟨"b", fun _ => ([c8Ev2], 2)⟩]

/-- Concrete store for C8's witness: only key "b" is present. -/
def c8Store : String → Option Nat := fun k => if k = "b" then some 0 else none

/-- Witness for C8: watcher "a" (first run) contributes no events but its
new state is persisted; watcher "b" contributes its events. -/
theorem orchestrator_first_run_suppression_witness :
    ((c8Watchers.map (fun w => w.key)).Nodup)
    ∧ ((WatcherService.checkAll c8Watchers c8Store).1
          = c8Watchers.flatMap (fun w => match c8Store w.key with
              | none => []
              | some s => (w.check (some s)).1)
      ∧ ∀ w ∈ c8Watchers, (WatcherService.checkAll c8Watchers c8Store).2 w.key
          = some (w.check (c8Store w.key)).2) :=
  ⟨by decide,
    orchestrator_first_run_suppression c8Watchers c8Store (by decide)⟩

/-- Three pairwise-disjoint filters plus the residual filter partition a
list, up to permutation. -/
lemma filter_four_partition {α : Type} (p1 p2 p3 q : α → Bool) :
    ∀ l : List α,
      (∀ a ∈ l, (p1 a && p2 a) = false ∧ (p1 a && p3 a) = false
        ∧ (p2 a && p3 a) = false ∧ q a = (!p1 a && !p2 a && !p3 a)) →
      List.Perm (l.filter p1 ++ l.filter p2 ++ l.filter p3 ++ l.filter q)
        l := by
  intro l
  induction l with
  | nil => intro _; simp
  | cons a rest ih =>
    intro hd
    have hda := hd a (List.mem_cons_self _ _)
    have hperm := ih (fun x hx => hd x (List.mem_cons_of_mem _ hx))
    rcases h1 : p1 a with _ | _
    · rcases h2 : p2 a with _ | _
      · rcases h3 : p3 a with _ | _
        · -- residual bucket
          have hqa : q a = true := by rw [hda.2.2.2, h1, h2, h3]; rfl
          simp only [List.filter_cons, h1, h2, h3, hqa, Bool.false_eq_true,
            if_false, if_true]
          refine List.Perm.trans ?_ ((hperm).cons a)
          exact List.perm_middle
        · -- p3 bucket
          have hqa : q a = false := by rw [hda.2.2.2, h1, h2, h3]; rfl
          simp only [List.filter_cons, h1, h2, h3, hqa, Bool.false_eq_true,
            if_false, if_true]
          refine List.Perm.trans ?_ ((hperm).cons a)
          have : List.filter p1 rest ++ List.filter p2 rest
                ++ (a :: List.filter p3 rest) ++ List.filter q rest
              = (List.filter p1 rest ++ List.filter p2 rest)
                ++ a :: (List.filter p3 rest ++ List.filter q rest) := by
            simp [List.append_assoc]
          rw [this]
          refine List.Perm.trans List.perm_middle ?_
          simp only [← List.append_assoc]
          exact List.Perm.refl _
      · -- p2 bucket; disjointness forces p3 a = false
        have h3 : p3 a = false := by
          have := hda.2.2.1; rw [h2] at this; simpa using this
        have hqa : q a = false := by rw [hda.2.2.2, h1, h2, h3]; rfl
        simp only [List.filter_cons, h1, h2, h3, hqa, Bool.false_eq_true,
          if_false, if_true]
        refine List.Perm.trans ?_ ((hperm).cons a)
        have : List.filter p1 rest ++ (a :: List.filter p2 rest)
              ++ List.filter p3 rest ++ List.filter q rest
            = List.filter p1 rest
              ++ a :: (List.filter p2 rest ++ List.filter p3 rest
                ++ List.filter q rest) := by
          simp [List.append_assoc]
        rw [this]
        refine List.Perm.trans List.perm_middle ?_
        simp only [← List.append_assoc]
        exact List.Perm.refl _
    · -- p1 bucket; disjointness forces p2 a = p3 a = false
      have h2 : p2 a = false := by
        have := hda.1; rw [h1] at this; simpa using this
      have h3 : p3 a = false := by
        have := hda.2.1; rw [h1] at this; simpa using this
      have hqa : q a = false := by rw [hda.2.2.2, h1, h2, h3]; rfl
      simp only [List.filter_cons, h1, h2, h3, hqa, Bool.false_eq_true,
        if_false, if_true]
      refine List.Perm.trans ?_ ((hperm).cons a)
      simp only [List.cons_append]
      exact List.Perm.refl _

/-- C1 (amended): provided no non-priority event combines
source = "leaderboard" with release stage ANNOUNCED or LAUNCHED (true of
every event this program's watchers construct — leaderboard events always
carry stage UNKNOWN), the five router buckets of `run_once` contain exactly
the (marked) input events, each exactly once: their concatenation is a
permutation of the marked event list.  Without that proviso the
`announcements`/`launches` buckets overlap the `leaderboardEvents` bucket
(see the counterexample). -/
theorem routing_partition (cfg : RouterConfig) (events : List WatchEvent)
    (h : ∀ e ∈ events, e.source = "leaderboard" →
      e.releaseStage ≠ ReleaseStage.announced
        ∧ e.releaseStage ≠ ReleaseStage.launched) :
    List.Perm
      ((routeEvents cfg events).priority
        ++ (routeEvents cfg events).announcements
        ++ (routeEvents cfg events).launches
        ++ (routeEvents cfg events).leaderboardEvents
        ++ (routeEvents cfg events).other)
      (markPriorityEvents cfg events) := by
  have hnor_mem : ∀ e ∈ (markPriorityEvents cfg events).filter
      (fun e => !isPriorityModel cfg e.modelName),
      e.source = "leaderboard" →
        e.releaseStage ≠ ReleaseStage.announced
          ∧ e.releaseStage ≠ ReleaseStage.launched := by
    intro e he hs
    have hm : e ∈ markPriorityEvents cfg events := List.mem_of_mem_filter he
    obtain ⟨e0, he0, hsrc, hstage, -⟩ := mem_markPriorityEvents hm
    rw [hsrc] at hs
    have hstages := h e0 he0 hs
    rw [hstage]
    exact hstages
  have hd : ∀ e ∈ (markPriorityEvents cfg events).filter
      (fun e => !isPriorityModel cfg e.modelName),
      ((fun e => decide (e.releaseStage = ReleaseStage.announced)) e
        && (fun e => decide (e.releaseStage = ReleaseStage.launched)) e) = false
      ∧ ((fun e => decide (e.releaseStage = ReleaseStage.announced)) e
        && (fun e => decide (e.source = "leaderboard")) e) = false
      ∧ ((fun e => decide (e.releaseStage = ReleaseStage.launched)) e
        && (fun e => decide (e.source = "leaderboard")) e) = false
      ∧ (fun e => decide (e ∉
            ((markPriorityEvents cfg events).filter
              (fun e => !isPriorityModel cfg e.modelName)).filter
                (fun e => decide (e.releaseStage = ReleaseStage.announced))
            ++ ((markPriorityEvents cfg events).filter
              (fun e => !isPriorityModel cfg e.modelName)).filter
                (fun e => decide (e.releaseStage = ReleaseStage.launched))
            ++ ((markPriorityEvents cfg events).filter
              (fun e => !isPriorityModel cfg e.modelName)).filter
                (fun e => decide (e.source = "leaderboard")))) e
          = (!(fun e => decide (e.releaseStage = ReleaseStage.announced)) e
            && !(fun e => decide (e.releaseStage = ReleaseStage.launched)) e
            && !(fun e => decide (e.source = "leaderboard")) e) := by
    intro e he
    refine ⟨?_, ?_, ?_, ?_⟩
    · show (decide (e.releaseStage = ReleaseStage.announced)
          && decide (e.releaseStage = ReleaseStage.launched)) = false
      obtain ⟨s, t, m, x, rs⟩ := e
      cases rs <;> rfl
    · show (decide (e.releaseStage = ReleaseStage.announced)
          && decide (e.source = "leaderboard")) = false
      by_cases hs : e.source = "leaderboard"
      · rw [decide_eq_false (hnor_mem e he hs).1]
        rfl
      · rw [decide_eq_false hs]
        exact Bool.and_false _
    · show (decide (e.releaseStage = ReleaseStage.launched)
          && decide (e.source = "leaderboard")) = false
      by_cases hs : e.source = "leaderboard"
      · rw [decide_eq_false (hnor_mem e he hs).2]
        rfl
      · rw [decide_eq_false hs]
        exact Bool.and_false _
    · show decide (e ∉
            ((markPriorityEvents cfg events).filter
              (fun e => !isPriorityModel cfg e.modelName)).filter
                (fun e => decide (e.releaseStage = ReleaseStage.announced))
            ++ ((markPriorityEvents cfg events).filter
              (fun e => !isPriorityModel cfg e.modelName)).filter
                (fun e => decide (e.releaseStage = ReleaseStage.launched))
            ++ ((markPriorityEvents cfg events).filter
              (fun e => !isPriorityModel cfg e.modelName)).filter
                (fun e => decide (e.source = "leaderboard")))
          = ((!decide (e.releaseStage = ReleaseStage.announced)
            && !decide (e.releaseStage = ReleaseStage.launched))
            && !decide (e.source = "leaderboard"))
      rw [Bool.eq_iff_iff]
      simp only [decide_eq_true_eq, Bool.and_eq_true, Bool.not_eq_true',
        decide_eq_false_iff_not, List.mem_append, List.mem_filter, he,
        true_and]
      tauto
  have hperm4 := filter_four_partition
    (fun e => decide (e.releaseStage = ReleaseStage.announced))
    (fun e => decide (e.releaseStage = ReleaseStage.launched))
    (fun e => decide (e.source = "leaderboard"))
    (fun e => decide (e ∉
      ((markPriorityEvents cfg events).filter
        (fun e => !isPriorityModel cfg e.modelName)).filter
          (fun e => decide (e.releaseStage = ReleaseStage.announced))
      ++ ((markPriorityEvents cfg events).filter
        (fun e => !isPriorityModel cfg e.modelName)).filter
          (fun e => decide (e.releaseStage = ReleaseStage.launched))
      ++ ((markPriorityEvents cfg events).filter
        (fun e => !isPriorityModel cfg e.modelName)).filter
          (fun e => decide (e.source = "leaderboard"))))
    ((markPriorityEvents cfg events).filter
      (fun e => !isPriorityModel cfg e.modelName))
    hd
  have hfinal := (hperm4.append_left ((markPriorityEvents cfg events).filter
      (fun e => isPriorityModel cfg e.modelName))).trans
    (List.filter_append_perm (fun e => isPriorityModel cfg e.modelName)
      (markPriorityEvents cfg events))
  show List.Perm
    ((markPriorityEvents cfg events).filter
        (fun e => isPriorityModel cfg e.modelName)
      ++ ((markPriorityEvents cfg events).filter
          (fun e => !isPriorityModel cfg e.modelName)).filter
            (fun e => decide (e.releaseStage = ReleaseStage.announced))
      ++ ((markPriorityEvents cfg events).filter
          (fun e => !isPriorityModel cfg e.modelName)).filter
            (fun e => decide (e.releaseStage = ReleaseStage.launched))
      ++ ((markPriorityEvents cfg events).filter
          (fun e => !isPriorityModel cfg e.modelName)).filter
            (fun e => decide (e.source = "leaderboard"))
      ++ ((markPriorityEvents cfg events).filter
          (fun e => !isPriorityModel cfg e.modelName)).filter
            (fun e => decide (e ∉
              ((markPriorityEvents cfg events).filter
                (fun e => !isPriorityModel cfg e.modelName)).filter
                  (fun e => decide (e.releaseStage = ReleaseStage.announced))
              ++ ((markPriorityEvents cfg events).filter
                (fun e => !isPriorityModel cfg e.modelName)).filter
                  (fun e => decide (e.releaseStage = ReleaseStage.launched))
              ++ ((markPriorityEvents cfg events).filter
                (fun e => !isPriorityModel cfg e.modelName)).filter
                  (fun e => decide (e.source = "leaderboard")))))
    (markPriorityEvents cfg events)
  simpa only [List.append_assoc] using hfinal

/-- Router configuration for C1's witness: one priority model "z". -/
def c1Cfg : RouterConfig := ⟨[⟨"z", true⟩], []⟩

/-- Event list for C1's witness: a launch, a leaderboard event (stage
UNKNOWN, as the leaderboard watcher constructs them) and a priority-model
commit. -/
def c1Events : List WatchEvent :=
  [⟨"github", "release_launched", "m1", [], .launched⟩,
   ⟨"leaderboard", "leaderboard_rank_change", "m2", [], .unknown⟩,
   ⟨"github", "new_commit", "z", [], .unknown⟩]

/-- Witness for C1's amended theorem on a mixed three-event cycle. -/
theorem routing_partition_witness :
    (∀ e ∈ c1Events, e.source = "leaderboard" →
      e.releaseStage ≠ ReleaseStage.announced
        ∧ e.releaseStage ≠ ReleaseStage.launched)
    ∧ List.Perm
        ((routeEvents c1Cfg c1Events).priority
          ++ (routeEvents c1Cfg c1Events).announcements
          ++ (routeEvents c1Cfg c1Events).launches
          ++ (routeEvents c1Cfg c1Events).leaderboardEvents
          ++ (routeEvents c1Cfg c1Events).other)
        (markPriorityEvents c1Cfg c1Events) :=
  ⟨by decide, routing_partition c1Cfg c1Events (by decide)⟩

/-- A hypothetical event combining source "leaderboard" with stage
ANNOUNCED, used to refute the unconditional partition claim. -/
def c1BadEvent : WatchEvent :=
  ⟨"leaderboard", "leaderboard_rank_change", "m", [], .announced⟩

/-- C1 counterexample: a non-priority event with source "leaderboard" and
stage ANNOUNCED lands in BOTH the `announcements` and the
`leaderboardEvents` buckets, so the five buckets together hold two copies
of the single input event — they do not partition the input. -/
theorem routing_partition_counterexample :
    (routeEvents ⟨[], []⟩ [c1BadEvent]).announcements = [c1BadEvent]
    ∧ (routeEvents ⟨[], []⟩ [c1BadEvent]).leaderboardEvents = [c1BadEvent]
    ∧ ¬ List.Perm
        ((routeEvents ⟨[], []⟩ [c1BadEvent]).priority
          ++ (routeEvents ⟨[], []⟩ [c1BadEvent]).announcements
          ++ (routeEvents ⟨[], []⟩ [c1BadEvent]).launches
          ++ (routeEvents ⟨[], []⟩ [c1BadEvent]).leaderboardEvents
          ++ (routeEvents ⟨[], []⟩ [c1BadEvent]).other)
        (markPriorityEvents ⟨[], []⟩ [c1BadEvent]) :=
  ⟨by decide, by decide, by decide⟩

namespace GitHubWatcher

/-- One commit of the commits-list response (`src/watchers/github_watcher.py`,
lines 161–215); only the fields the code reads are modelled (author name
and date are presentation). -/
structure Commit where
  sha : String
  message : String
deriving DecidableEq, Repr

/-- One release of the releases-list response (lines 217–274); `hasAssets`
models the truthiness of `release.get('assets')`. -/
structure Release where
  id : Int
  tagName : String
  name : String
  body : String
  prerelease : Bool
  hasAssets : Bool
deriving DecidableEq, Repr

/-- The repository-info response of `_check_repo_exists` (lines 97–146);
`created_at` is kept as the raw string — parsing it is presentation, but
note that an unparsable `created_at` would raise a `ValueError` past the
`check_updates` boundary, since only `requests.RequestException` is caught
there (the orchestrator's per-watcher handler would absorb it). -/
structure RepoInfo where
  description : String
  createdAt : String
  stars : Int
  forks : Int
  language : String
deriving DecidableEq, Repr

/-- The GitHub watcher's state dict: keys `repo_known`, `repo_created_at`,
`last_commit_sha` and `last_release_id`; a missing key reads as absent. -/
structure GhState where
  repoKnown : Bool
  repoCreatedAt : Option String
  lastCommitSha : Option String
  lastReleaseId : Option Int
deriving DecidableEq, Repr

/-- Python `last_check_state or ...` on an absent prior state: the empty
dict, in which every key is missing. -/
def emptyGhState : GhState := ⟨false, none, none, none⟩

/-- The HTTP outcomes one `check_updates` call consumes.  `none` stands for
a caught `requests.RequestException` or a non-200 status: the code absorbs
both identically.  `hasReleases` is the boolean outcome of the
`_has_releases` probe (lines 148–159), which is `false` also when that
probe's own request fails. -/
structure GhFetch where
  commits : Option (List Commit)
  releases : Option (List Release)
  repo : Option RepoInfo
  hasReleases : Bool
deriving DecidableEq, Repr

/-- A `new_commit` event (lines 194–209): the message is classified and the
short and full shas are carried. -/
def newCommitEvent (modelName : String) (c : Commit) : WatchEvent :=
  { source := "github"
    eventType := "new_commit"
    modelName := modelName
    extraData := [("sha", .str ⟨c.sha.data.take 7⟩), ("full_sha", .str c.sha)]
    releaseStage := detectReleaseStage c.message false }

/-- A release event (lines 239–268): the concatenated name and body are
classified with the prerelease flag; assets on a non-prerelease force
LAUNCHED; the event type is derived from the final stage. -/
def releaseEvent (modelName : String) (r : Release) : WatchEvent :=
  let stage0 := detectReleaseStage (r.name ++ " " ++ r.body) r.prerelease
  let stage := if r.hasAssets && !r.prerelease then ReleaseStage.launched
    else stage0
  { source := "github"
    eventType := if stage = ReleaseStage.launched then "release_launched"
      else "release_announced"
    modelName := modelName
    extraData := [("tag", .str r.tagName), ("prerelease", .bool r.prerelease),
                  ("has_assets", .bool r.hasAssets)]
    releaseStage := stage }

/-- The repository-discovery event (lines 111–142): classify the repo
description; existing releases force LAUNCHED; UNKNOWN defaults to
ANNOUNCED for a fresh repo without releases. -/
def repoDiscoveredEvent (modelName : String) (info : RepoInfo)
    (hasReleases : Bool) : WatchEvent :=
  let stage0 := detectReleaseStage info.description false
  let stage := if hasReleases then ReleaseStage.launched
    else if stage0 = ReleaseStage.unknown then ReleaseStage.announced
    else stage0
  { source := "github"
    eventType := if stage = ReleaseStage.launched then "release_launched"
      else "release_announced"
    modelName := modelName
    extraData := [("stars", .int info.stars), ("forks", .int info.forks),
                  ("language", .str info.language)]
    releaseStage := stage }

/-- `GitHubWatcher._check_commits` (lines 161–215): a failed fetch or an
empty commit list changes nothing; otherwise, when a head sha was stored
and differs from the fresh head, the commits above the stored sha (at most
5) become events, and the fresh head sha is stored in either case. -/
def checkCommits (modelName : String) (fetch : Option (List Commit))
    (st : GhState) : List WatchEvent × GhState :=
  match fetch with
  | none => ([], st)
  | some commits =>
    match commits with
    | [] => ([], st)
    | latest :: _ =>
      let events := match st.lastCommitSha with
        | none => []
        | some lastSha =>
          if latest.sha ≠ lastSha then
            ((commits.takeWhile (fun c => decide (c.sha ≠ lastSha))).take 5).map
              (newCommitEvent modelName)
          else []
      (events, { st with lastCommitSha := some latest.sha })

/-- `GitHubWatcher._check_releases` (lines 217–274): analogous to the
commit check, without the 5-event cap, keyed on the release id. -/
def checkReleases (modelName : String) (fetch : Option (List Release))
    (st : GhState) : List WatchEvent × GhState :=
  match fetch with
  | none => ([], st)
  | some releases =>
    match releases with
    | [] => ([], st)
    | latest :: _ =>
      let events := match st.lastReleaseId with
        | none => []
        | some lastId =>
          if latest.id ≠ lastId then
            (releases.takeWhile (fun r => decide (r.id ≠ lastId))).map
              (releaseEvent modelName)
          else []
      (events, { st with lastReleaseId := some latest.id })

/-- `GitHubWatcher._check_repo_exists` (lines 97–146): once the repo is
known nothing happens; a failed fetch changes nothing; a successful fetch
marks the repo known, stores its creation time and reports the discovery. -/
def checkRepoExists (modelName : String) (fetch : Option RepoInfo)
    (hasReleases : Bool) (st : GhState) : Option WatchEvent × GhState :=
  if st.repoKnown then (none, st)
  else
    match fetch with
    | none => (none, st)
    | some info =>
      (some (repoDiscoveredEvent modelName info hasReleases),
        { st with repoKnown := true, repoCreatedAt := some info.createdAt })

/-- `GitHubWatcher.check_updates` (lines 74–95): no configured repo means
no work; otherwise commits, releases and repo discovery are checked in
order, threading the (copied) state, and a repo-discovery event is appended
last.  Every caught-failure path is a total return here; in the Python only
`requests.RequestException` is caught, so the embedding assumes well-formed
payloads (see `RepoInfo.createdAt`). -/
def ghCheckUpdates (modelName : String) (repoConfigured : Bool)
    (fetch : GhFetch) (prior : Option GhState) : List WatchEvent × GhState :=
  if ¬repoConfigured then ([], prior.getD emptyGhState)
  else
    let st0 := prior.getD emptyGhState
    let c := checkCommits modelName fetch.commits st0
    let r := checkReleases modelName fetch.releases c.2
    let rp := checkRepoExists modelName fetch.repo fetch.hasReleases r.2
    (c.1 ++ r.1 ++ (match rp.1 with | none => [] | some e => [e]), rp.2)

lemma checkRepoExists_none (modelName : String) (hasReleases : Bool)
    (st : GhState) :
    checkRepoExists modelName none hasReleases st = (none, st) := by
  obtain ⟨rk, rc, lc, lr⟩ := st
  cases rk <;> rfl

/-- The commit check only ever writes the `last_commit_sha` slice. -/
lemma checkCommits_slices (modelName : String) (fetch : Option (List Commit))
    (st : GhState) :
    (checkCommits modelName fetch st).2.repoKnown = st.repoKnown
    ∧ (checkCommits modelName fetch st).2.repoCreatedAt = st.repoCreatedAt
    ∧ (checkCommits modelName fetch st).2.lastReleaseId = st.lastReleaseId := by
  rcases fetch with _ | commits
  · exact ⟨rfl, rfl, rfl⟩
  · rcases commits with _ | ⟨latest, rest⟩
    · exact ⟨rfl, rfl, rfl⟩
    · exact ⟨rfl, rfl, rfl⟩

/-- The release check only ever writes the `last_release_id` slice. -/
lemma checkReleases_slices (modelName : String)
    (fetch : Option (List Release)) (st : GhState) :
    (checkReleases modelName fetch st).2.repoKnown = st.repoKnown
    ∧ (checkReleases modelName fetch st).2.repoCreatedAt = st.repoCreatedAt
    ∧ (checkReleases modelName fetch st).2.lastCommitSha = st.lastCommitSha := by
  rcases fetch with _ | releases
  · exact ⟨rfl, rfl, rfl⟩
  · rcases releases with _ | ⟨latest, rest⟩
    · exact ⟨rfl, rfl, rfl⟩
    · exact ⟨rfl, rfl, rfl⟩

/-- The repo check never writes the commit or release slices. -/
lemma checkRepoExists_slices (modelName : String) (fetch : Option RepoInfo)
    (hasReleases : Bool) (st : GhState) :
    (checkRepoExists modelName fetch hasReleases st).2.lastCommitSha
        = st.lastCommitSha
    ∧ (checkRepoExists modelName fetch hasReleases st).2.lastReleaseId
        = st.lastReleaseId := by
  obtain ⟨rk, rc, lc, lr⟩ := st
  cases rk
  · rcases fetch with _ | info <;> exact ⟨rfl, rfl⟩
  · exact ⟨rfl, rfl⟩

/-- Every event the commit check emits is a `new_commit` event. -/
lemma mem_checkCommits (modelName : String) {fetch : Option (List Commit)}
    {st : GhState} {e : WatchEvent}
    (h : e ∈ (checkCommits modelName fetch st).1) :
    ∃ c, e = newCommitEvent modelName c := by
  rcases fetch with _ | commits
  · cases h
  · rcases commits with _ | ⟨latest, rest⟩
    · cases h
    · simp only [checkCommits] at h
      split at h
      · cases h
      · split at h
        · obtain ⟨c, -, rfl⟩ := List.mem_map.1 h
          exact ⟨c, rfl⟩
        · cases h

/-- Every event the release check emits is a release event. -/
lemma mem_checkReleases (modelName : String) {fetch : Option (List Release)}
    {st : GhState} {e : WatchEvent}
    (h : e ∈ (checkReleases modelName fetch st).1) :
    ∃ r, e = releaseEvent modelName r := by
  rcases fetch with _ | releases
  · cases h
  · rcases releases with _ | ⟨latest, rest⟩
    · cases h
    · simp only [checkReleases] at h
      split at h
      · cases h
      · split at h
        · obtain ⟨r, -, rfl⟩ := List.mem_map.1 h
          exact ⟨r, rfl⟩
        · cases h

/-- The only event the repo check can emit is the discovery event. -/
lemma checkRepoExists_event (modelName : String) {fetch : Option RepoInfo}
    {hasReleases : Bool} {st : GhState} {e : WatchEvent}
    (h : (checkRepoExists modelName fetch hasReleases st).1 = some e) :
    ∃ info, e = repoDiscoveredEvent modelName info hasReleases := by
  obtain ⟨rk, rc, lc, lr⟩ := st
  cases rk
  · rcases fetch with _ | info
    · cases h
    · exact ⟨info, (Option.some_inj.1 h).symm⟩
  · cases h

lemma releaseEvent_eventType (modelName : String) (r : Release) :
    (releaseEvent modelName r).eventType = "release_launched"
    ∨ (releaseEvent modelName r).eventType = "release_announced" := by
  simp only [releaseEvent]
  split
  · exact Or.inl rfl
  · split
    · exact Or.inl rfl
    · exact Or.inr rfl

lemma repoDiscoveredEvent_eventType (modelName : String) (info : RepoInfo)
    (hasReleases : Bool) :
    (repoDiscoveredEvent modelName info hasReleases).eventType
        = "release_launched"
    ∨ (repoDiscoveredEvent modelName info hasReleases).eventType
        = "release_announced" := by
  simp only [repoDiscoveredEvent]
  split
  · exact Or.inl rfl
  · split
    · exact Or.inr rfl
    · split
      · exact Or.inl rfl
      · exact Or.inr rfl

end GitHubWatcher

namespace GitHubWatcher

/-- The sha slice keys of a `new_commit` event carry no `tag` entry. -/
lemma newCommitEvent_extraS_tag (modelName : String) (c : Commit) :
    (newCommitEvent modelName c).extraS "tag" = none := rfl

/-- The sha slice keys of a `new_commit` event carry no `stars` entry. -/
lemma newCommitEvent_extraI_stars (modelName : String) (c : Commit) :
    (newCommitEvent modelName c).extraI "stars" = none := rfl

/-- A release event's extra data carries no `stars` entry. -/
lemma releaseEvent_extraI_stars (modelName : String) (r : Release) :
    (releaseEvent modelName r).extraI "stars" = none := rfl

/-- The repo-discovery event's extra data carries no `tag` entry. -/
lemma repoDiscoveredEvent_extraS_tag (modelName : String) (info : RepoInfo)
    (hasReleases : Bool) :
    (repoDiscoveredEvent modelName info hasReleases).extraS "tag" = none := rfl

/-- When every sub-fetch of a call fails (caught request errors), the call
returns no events and a state equal to the prior state. -/
lemma ghCheckUpdates_all_fail (modelName : String) (repoConfigured : Bool)
    (gfetch : GhFetch) (s : GhState) (hc : gfetch.commits = none)
    (hr : gfetch.releases = none) (hp : gfetch.repo = none) :
    ghCheckUpdates modelName repoConfigured gfetch (some s) = ([], s) := by
  by_cases hcfg : repoConfigured
  · simp only [ghCheckUpdates, hcfg, not_true_eq_false, if_false,
      Option.getD_some, hc, hr, hp, checkCommits, checkReleases,
      checkRepoExists_none, List.nil_append]
  · simp [ghCheckUpdates, hcfg]

/-- A failed commits fetch leaves the stored head sha untouched and
contributes no `new_commit` event. -/
lemma ghCheckUpdates_commits_fail (modelName : String) (repoConfigured : Bool)
    (gfetch : GhFetch) (prior : Option GhState)
    (hc : gfetch.commits = none) :
    (ghCheckUpdates modelName repoConfigured gfetch prior).2.lastCommitSha
        = (prior.getD emptyGhState).lastCommitSha
    ∧ ∀ e ∈ (ghCheckUpdates modelName repoConfigured gfetch prior).1,
        e.eventType ≠ "new_commit" := by
  by_cases hcfg : repoConfigured
  · constructor
    · simp only [ghCheckUpdates, hcfg, not_true_eq_false, if_false, hc,
        checkCommits]
      rw [(checkRepoExists_slices modelName gfetch.repo gfetch.hasReleases
            _).1,
          (checkReleases_slices modelName gfetch.releases _).2.2]
    · intro e he
      simp only [ghCheckUpdates, hcfg, not_true_eq_false, if_false, hc,
        checkCommits, List.nil_append, List.mem_append] at he
      rcases he with he | he
      · obtain ⟨r, rfl⟩ := mem_checkReleases modelName he
        rcases releaseEvent_eventType modelName r with h | h <;>
          · rw [h]; decide
      · rcases hrp : (checkRepoExists modelName gfetch.repo
            gfetch.hasReleases (checkReleases modelName gfetch.releases
              (prior.getD emptyGhState)).2).1 with _ | ev
        · rw [hrp] at he; cases he
        · rw [hrp] at he
          obtain rfl : e = ev := by simpa using he
          obtain ⟨info, rfl⟩ := checkRepoExists_event modelName hrp
          rcases repoDiscoveredEvent_eventType modelName info
              gfetch.hasReleases with h | h <;>
            · rw [h]; decide
  · simp [ghCheckUpdates, hcfg]

/-- A failed releases fetch leaves the stored release id untouched and
contributes no event carrying a release tag. -/
lemma ghCheckUpdates_releases_fail (modelName : String)
    (repoConfigured : Bool) (gfetch : GhFetch) (prior : Option GhState)
    (hr : gfetch.releases = none) :
    (ghCheckUpdates modelName repoConfigured gfetch prior).2.lastReleaseId
        = (prior.getD emptyGhState).lastReleaseId
    ∧ ∀ e ∈ (ghCheckUpdates modelName repoConfigured gfetch prior).1,
        e.extraS "tag" = none := by
  by_cases hcfg : repoConfigured
  · constructor
    · simp only [ghCheckUpdates, hcfg, not_true_eq_false, if_false, hr,
        checkReleases]
      rw [(checkRepoExists_slices modelName gfetch.repo gfetch.hasReleases
            _).2,
          (checkCommits_slices modelName gfetch.commits _).2.2]
    · intro e he
      simp only [ghCheckUpdates, hcfg, not_true_eq_false, if_false, hr,
        checkReleases, List.append_nil, List.mem_append] at he
      rcases he with he | he
      · obtain ⟨c, rfl⟩ := mem_checkCommits modelName he
        exact newCommitEvent_extraS_tag modelName c
      · rcases hrp : (checkRepoExists modelName gfetch.repo
            gfetch.hasReleases (checkCommits modelName gfetch.commits
              (prior.getD emptyGhState)).2).1 with _ | ev
        · rw [hrp] at he; cases he
        · rw [hrp] at he
          obtain rfl : e = ev := by simpa using he
          obtain ⟨info, rfl⟩ := checkRepoExists_event modelName hrp
          exact repoDiscoveredEvent_extraS_tag modelName info
            gfetch.hasReleases
  · simp [ghCheckUpdates, hcfg]

/-- A failed repo-info fetch leaves the discovery slices untouched and
contributes no discovery event (recognised by its `stars` entry). -/
lemma ghCheckUpdates_repo_fail (modelName : String) (repoConfigured : Bool)
    (gfetch : GhFetch) (prior : Option GhState) (hp : gfetch.repo = none) :
    (ghCheckUpdates modelName repoConfigured gfetch prior).2.repoKnown
        = (prior.getD emptyGhState).repoKnown
    ∧ (ghCheckUpdates modelName repoConfigured gfetch prior).2.repoCreatedAt
        = (prior.getD emptyGhState).repoCreatedAt
    ∧ ∀ e ∈ (ghCheckUpdates modelName repoConfigured gfetch prior).1,
        e.extraI "stars" = none := by
  by_cases hcfg : repoConfigured
  · refine ⟨?_, ?_, ?_⟩
    · simp only [ghCheckUpdates, hcfg, not_true_eq_false, if_false, hp,
        checkRepoExists_none]
      rw [(checkReleases_slices modelName gfetch.releases _).1,
          (checkCommits_slices modelName gfetch.commits _).1]
    · simp only [ghCheckUpdates, hcfg, not_true_eq_false, if_false, hp,
        checkRepoExists_none]
      rw [(checkReleases_slices modelName gfetch.releases _).2.1,
          (checkCommits_slices modelName gfetch.commits _).2.1]
    · intro e he
      simp only [ghCheckUpdates, hcfg, not_true_eq_false, if_false, hp,
        checkRepoExists_none, List.append_nil, List.mem_append] at he
      rcases he with he | he
      · obtain ⟨c, rfl⟩ := mem_checkCommits modelName he
        exact newCommitEvent_extraI_stars modelName c
      · obtain ⟨r, rfl⟩ := mem_checkReleases modelName he
        exact releaseEvent_extraI_stars modelName r
  · simp [ghCheckUpdates, hcfg]

end GitHubWatcher

open GitHubWatcher in
/-- C4: Caught transient fetch failures are contained in both cited
watchers, but per fetch, not per call.  Leaderboard
(`LeaderboardWatcher.check_updates`): if every board fetch of the call
fails, the call returns no events and the prior state unchanged; a failure
confined to one board leaves that board's state slice unchanged and
contributes no events tagged with that board, while other boards still
contribute.  GitHub (`GitHubWatcher.check_updates`, lines 74–95): if the
commits, releases and repo-info fetches all fail, the call returns no
events and the prior state unchanged; a failed commits fetch leaves the
stored head sha unchanged and yields no `new_commit` event; a failed
releases fetch leaves the stored release id unchanged and yields no event
carrying a release tag; a failed repo-info fetch leaves the discovery
slices unchanged and yields no discovery event.  (These cover the caught
failures — HTTP request errors; GitHub catches only those, so the
embedding assumes well-formed payloads.) -/
theorem watcher_fail_soft (cfg : LbConfig) (fetch : String → FetchResult)
    (modelName : String) (repoConfigured : Bool) (gfetch : GhFetch) :
    ((∀ s : LbStore, (∀ b ∈ cfg.boards, (fetch b).isFail = true) →
        lbCheckUpdates cfg fetch (some s) = ([], s))
      ∧ (∀ (prior : Option LbStore) (b : String), (fetch b).isFail = true →
          ((lbCheckUpdates cfg fetch prior).2 (lbStateKey b)
              = (prior.getD (fun _ => none)) (lbStateKey b)
            ∧ ∀ e ∈ (lbCheckUpdates cfg fetch prior).1,
                e.extraS "leaderboard" ≠ some b)))
    ∧ (∀ s : GhState, gfetch.commits = none → gfetch.releases = none →
        gfetch.repo = none →
          ghCheckUpdates modelName repoConfigured gfetch (some s) = ([], s))
    ∧ (∀ prior : Option GhState, gfetch.commits = none →
        ((ghCheckUpdates modelName repoConfigured gfetch prior).2.lastCommitSha
            = (prior.getD emptyGhState).lastCommitSha
          ∧ ∀ e ∈ (ghCheckUpdates modelName repoConfigured gfetch prior).1,
              e.eventType ≠ "new_commit"))
    ∧ (∀ prior : Option GhState, gfetch.releases = none →
        ((ghCheckUpdates modelName repoConfigured gfetch prior).2.lastReleaseId
            = (prior.getD emptyGhState).lastReleaseId
          ∧ ∀ e ∈ (ghCheckUpdates modelName repoConfigured gfetch prior).1,
              e.extraS "tag" = none))
    ∧ (∀ prior : Option GhState, gfetch.repo = none →
        ((ghCheckUpdates modelName repoConfigured gfetch prior).2.repoKnown
            = (prior.getD emptyGhState).repoKnown
          ∧ (ghCheckUpdates modelName repoConfigured gfetch
                prior).2.repoCreatedAt
              = (prior.getD emptyGhState).repoCreatedAt
          ∧ ∀ e ∈ (ghCheckUpdates modelName repoConfigured gfetch prior).1,
              e.extraI "stars" = none)) :=
  ⟨leaderboard_fail_soft cfg fetch,
   fun s hc hr hp =>
     ghCheckUpdates_all_fail modelName repoConfigured gfetch s hc hr hp,
   fun prior hc =>
     ghCheckUpdates_commits_fail modelName repoConfigured gfetch prior hc,
   fun prior hr =>
     ghCheckUpdates_releases_fail modelName repoConfigured gfetch prior hr,
   fun prior hp =>
     ghCheckUpdates_repo_fail modelName repoConfigured gfetch prior hp⟩

/-- Fetch outcome for C4's witness: every GitHub sub-fetch fails. -/
def c4GhFetch : GitHubWatcher.GhFetch := ⟨none, none, none, false⟩

/-- Prior GitHub state for C4's witness: a fully populated state dict. -/
def c4GhState : GitHubWatcher.GhState :=
  ⟨true, some "2024-01-01T00:00:00Z", some "abc123", some 5⟩

/-- C4 witness: the fail-soft theorem instantiated at an all-failing
leaderboard call over one board and an all-failing GitHub call over a
populated prior state. -/
theorem watcher_fail_soft_witness :
    lbCheckUpdates ⟨true, ["text-to-image"], 30⟩ (fun _ => FetchResult.exn)
        (some (fun _ => none)) = ([], fun _ => none)
    ∧ GitHubWatcher.ghCheckUpdates "m" true c4GhFetch (some c4GhState)
        = ([], c4GhState) :=
  ⟨(watcher_fail_soft ⟨true, ["text-to-image"], 30⟩ (fun _ => FetchResult.exn)
      "m" true c4GhFetch).1.1 (fun _ => none) (fun b _ => rfl),
   (watcher_fail_soft ⟨true, ["text-to-image"], 30⟩ (fun _ => FetchResult.exn)
      "m" true c4GhFetch).2.1 c4GhState rfl rfl rfl⟩
